import Mathlib

/-!
# libngstore: tiles, edit history, options, track points and the data store

A shallow embedding of parts of libngstore, followed by the properties proved
about them.

* `src/ds/geometry.h`: the tile key, the undo/redo history
  `EditGeometryData<T>`, the `VectorTile` / `VectorTileItem` containers with
  their binary form, the edit geometries and the envelope.  Of these classes
  only the header is available.  What is written inline in it
  (`Tile::operator==`, `Tile::operator<`, `_normal::operator==`,
  `VectorTileItem::operator==`, the `type()` overrides) is translated from the
  header; the member functions whose bodies live in `geometry.cpp` are modelled
  from the specification text, and each such definition says so.
* `src/ds/storefeatureclass.cpp`: `fillFields` of the store table and feature
  class, `TracksTable::sync` and the counters of `TracksTable::addPoint`.
* `src/util/options.cpp`: `Options` and `getNumberThreads`.
* `src/catalog/archive.cpp`: the path prefix of an `Archive`.
* `src/datastore.cpp`: `DataStore::open`, `create` and `openOrCreate`.

Calls into GDAL, the network and helpers declared outside these files are
inputs of the definitions.  For the case-insensitive keys of `Options` the
helper `toLower` is in addition given a definition, ASCII lower-casing.
-/

namespace ngs

/-! ## Tile addressing -/

/-- Tile key, `struct _tile` of geometry.h: `int x, y; unsigned char z;
char crossExtent`.  The operators only compare the fields, which C++ does after
promoting them to `int`, so each field is kept as the integer it denotes. -/
structure Tile where
  x : Int
  y : Int
  z : Nat
  crossExtent : Int
deriving DecidableEq, Repr

/-- Equality of tiles, `Tile::operator==`:
`x == other.x && y == other.y && z == other.z && crossExtent == other.crossExtent`. -/
def Tile.eq (a other : Tile) : Bool :=
  a.x == other.x && a.y == other.y && a.z == other.z &&
    a.crossExtent == other.crossExtent

/-- Ordering of tiles, `Tile::operator<`:
`x < other.x || (x == other.x && y < other.y) ||
 (x == other.x && y == other.y && z < other.z) ||
 (x == other.x && y == other.y && z == other.z && crossExtent < other.crossExtent)`. -/
def Tile.lt (a other : Tile) : Bool :=
  decide (a.x < other.x) || (a.x == other.x && decide (a.y < other.y)) ||
    (a.x == other.x && a.y == other.y && decide (a.z < other.z)) ||
    (a.x == other.x && a.y == other.y && a.z == other.z &&
      decide (a.crossExtent < other.crossExtent))

/-- The tuple `(x, y, z, crossExtent)` of a tile. -/
def Tile.key (a : Tile) : Int × Int × Nat × Int :=
  (a.x, a.y, a.z, a.crossExtent)

/-- Lexicographic order on 4-tuples, first component first: the standard
lexicographic product of the four strict orders. -/
def lexPrecedes (p q : Int × Int × Nat × Int) : Prop :=
  Prod.Lex (· < ·) (Prod.Lex (· < ·) (Prod.Lex (· < ·) (· < ·))) p q

/-! ## Undo/redo history -/

/-- Number of values of `size_t` (64-bit targets). -/
def SIZE_MOD : Nat := 2 ^ 64

/-- Data members of `template<class T> class EditGeometryData` (geometry.h):
`T m_data; std::vector<T> m_history; size_t m_currentEditStep;`. -/
structure EditGeometryData (T : Type) where
  m_data : T
  m_history : List T
  m_currentEditStep : Nat
deriving DecidableEq, Repr

namespace EditGeometryData

variable {T : Type}

/-- Modelled from the spec: the constructor `EditGeometryData()` (body in
geometry.cpp).  A new object holds its payload, an empty history and cursor 0;
the first snapshot is pushed by a later `saveState()`. -/
def construct (d : T) : EditGeometryData T :=
  { m_data := d, m_history := [], m_currentEditStep := 0 }

/-- The value `m_history.size() - 1` in `size_t` arithmetic: the subtraction
wraps to `SIZE_MOD - 1` for an empty history. -/
def lastIndex (s : EditGeometryData T) : Nat :=
  (s.m_history.length + SIZE_MOD - 1) % SIZE_MOD

/-- Modelled from the spec: `canUndo()` (body in geometry.cpp),
"canUndo() iff cursor > 0". -/
def canUndo (s : EditGeometryData T) : Bool :=
  decide (s.m_currentEditStep > 0)

/-- Modelled from the spec: `canRedo()` (body in geometry.cpp),
"canRedo() iff cursor < history.length - 1", the cursor being a `size_t`. -/
def canRedo (s : EditGeometryData T) : Bool :=
  decide (s.m_currentEditStep < s.lastIndex)

/-- Modelled from the spec: `undo()` (body in geometry.cpp): "if cursor == 0,
fail; else decrement cursor, set current = history[cursor]".  The result is
the returned flag and the new state; `none` stands for a read outside the
history vector, which C++ leaves undefined. -/
def undo (s : EditGeometryData T) : Option (Bool × EditGeometryData T) :=
  if s.m_currentEditStep = 0 then some (false, s)
  else
    let c := s.m_currentEditStep - 1
    match s.m_history[c]? with
    | some d => some (true, { s with m_data := d, m_currentEditStep := c })
    | none => none

/-- Modelled from the spec: `redo()` (body in geometry.cpp): "if
cursor == history.length - 1, fail; else increment cursor, set
current = history[cursor]".  Same result convention as `undo`. -/
def redo (s : EditGeometryData T) : Option (Bool × EditGeometryData T) :=
  if s.m_currentEditStep = s.lastIndex then some (false, s)
  else
    let c := s.m_currentEditStep + 1
    match s.m_history[c]? with
    | some d => some (true, { s with m_data := d, m_currentEditStep := c })
    | none => none

/-- Modelled from the spec: `saveState()` (body in geometry.cpp): "truncate
history to cursor+1 elements (discarding any redo branch), append a copy of
current, advance cursor to the new last index". -/
def saveState (s : EditGeometryData T) : EditGeometryData T :=
  let h := s.m_history.take (s.m_currentEditStep + 1) ++ [s.m_data]
  { s with m_history := h, m_currentEditStep := h.length - 1 }

/-- An edit of the payload: assignment to the public member `m_data`. -/
def setData (s : EditGeometryData T) (d : T) : EditGeometryData T :=
  { s with m_data := d }

/-- A run of edits each followed by `saveState()`: one `saveState()` call per
element of the list, the payload being set to that element first. -/
def saveAll : EditGeometryData T → List T → EditGeometryData T
  | s, [] => s
  | s, d :: ds => saveAll (saveState (setData s d)) ds

/-- A run of `n` consecutive `undo()` calls: the flags they return, in call
order, and the final state. -/
def undoRun : Nat → EditGeometryData T → Option (List Bool × EditGeometryData T)
  | 0, s => some ([], s)
  | n + 1, s =>
    match undo s with
    | none => none
    | some (b, s1) =>
      match undoRun n s1 with
      | none => none
      | some (bs, s2) => some (b :: bs, s2)

/-- States an `EditGeometryData` can be in: those obtained from a new object by
edits of the payload and calls of `saveState()`, `undo()` and `redo()`. -/
inductive Reachable : EditGeometryData T → Prop
  | construct (d : T) : Reachable (construct d)
  | setData (s : EditGeometryData T) (d : T) : Reachable s → Reachable (setData s d)
  | saveState (s : EditGeometryData T) : Reachable s → Reachable (saveState s)
  | undo (s s1 : EditGeometryData T) (b : Bool) :
      Reachable s → undo s = some (b, s1) → Reachable s1
  | redo (s s1 : EditGeometryData T) (b : Bool) :
      Reachable s → redo s = some (b, s1) → Reachable s1

end EditGeometryData

/-! ## Vector tiles -/

/-- Point in tile-local coordinates, `struct _normal` of geometry.h:
`float x, y`.  A `float` is held by its 32-bit IEEE-754 pattern; the only
operation on it, the tolerance comparison `isEqual`, is declared outside the
available sources and is a parameter of everything that compares points. -/
structure SimplePoint where
  x : Nat
  y : Nat
deriving DecidableEq, Repr

/-- Equality of points, `_normal::operator==`:
`isEqual(x, other.x) && isEqual(y, other.y)`. -/
def SimplePoint.eq (isEqual : Nat → Nat → Bool) (p other : SimplePoint) : Bool :=
  isEqual p.x other.x && isEqual p.y other.y

/-- Equality of `std::vector<SimplePoint>`: same size and element-wise `==`. -/
def pointsEq (isEqual : Nat → Nat → Bool) : List SimplePoint → List SimplePoint → Bool
  | [], [] => true
  | p :: ps, q :: qs => SimplePoint.eq isEqual p q && pointsEq isEqual ps qs
  | _, _ => false

/-- Data members of `class VectorTileItem` (geometry.h).  `unsigned short`
indices are naturals, the `std::set<GIntBig>` of feature ids is a finite set of
integers. -/
structure VectorTileItem where
  m_points : List SimplePoint
  m_indices : List Nat
  m_borderIndices : List (List Nat)
  m_centroids : List SimplePoint
  m_ids : Finset Int
  m_valid : Bool
  m_2d : Bool
deriving DecidableEq

/-- Equality of items, `VectorTileItem::operator==`:
`m_points == other.m_points`. -/
def VectorTileItem.eq (isEqual : Nat → Nat → Bool) (a other : VectorTileItem) : Bool :=
  pointsEq isEqual a.m_points other.m_points

/-- Modelled from the spec: `VectorTileItem::removeId` (body in geometry.cpp),
"discard id from each item's id set". -/
def VectorTileItem.removeId (a : VectorTileItem) (id : Int) : VectorTileItem :=
  { a with m_ids := a.m_ids.erase id }

/-- Modelled from the spec: `VectorTileItem::loadIds` (body in geometry.cpp),
"on a hit, union ids": the ids of `item` are folded into the receiver. -/
def VectorTileItem.loadIds (a item : VectorTileItem) : VectorTileItem :=
  { a with m_ids := a.m_ids ∪ item.m_ids }

/-- Data members of `class VectorTile` (geometry.h). -/
structure VectorTile where
  m_items : List VectorTileItem
  m_valid : Bool
deriving DecidableEq

/-- The duplicate search of `add`: the first existing item equal by points to
`item` takes over its ids; when there is none, `item` goes to the end. -/
def mergeItem (isEqual : Nat → Nat → Bool) (item : VectorTileItem) :
    List VectorTileItem → List VectorTileItem
  | [] => [item]
  | e :: es =>
    if VectorTileItem.eq isEqual e item then e.loadIds item :: es
    else e :: mergeItem isEqual item es

/-- Modelled from the spec: `VectorTile::add(item, checkDuplicates)` (body in
geometry.cpp): "if checkDuplicates is true, search existing items for
point-equality; on a hit, union ids; on a miss, append". -/
def VectorTile.add (isEqual : Nat → Nat → Bool) (t : VectorTile) (item : VectorTileItem)
    (checkDuplicates : Bool) : VectorTile :=
  if checkDuplicates then { t with m_items := mergeItem isEqual item t.m_items }
  else { t with m_items := t.m_items ++ [item] }

/-- Modelled from the spec: `VectorTile::remove(id)` (body in geometry.cpp):
"scan all items, discard id from each item's id set, drop items left with an
empty id set". -/
def VectorTile.remove (t : VectorTile) (id : Int) : VectorTile :=
  { t with m_items :=
      (t.m_items.map (fun e => e.removeId id)).filter (fun e => decide (e.m_ids ≠ ∅)) }

/-- Modelled from the spec: `VectorTile::empty()` (body in geometry.cpp), "tile
becomes empty() when no items remain". -/
def VectorTile.empty (t : VectorTile) : Bool :=
  t.m_items.isEmpty

/-! ### Binary form of a tile -/

/-- Content of a `Buffer` (util/buffer.h, not among the sources): the bytes
written so far, or the bytes still to be read. -/
abbrev Buffer := List Nat

/-- Write the `w` low bytes of `n`, least significant first. -/
def putLE : Nat → Nat → Buffer
  | 0, _ => []
  | w + 1, n => (n % 256) :: putLE w (n / 256)

/-- Read a `w`-byte unsigned integer; fails when fewer than `w` bytes are left. -/
def getLE : Nat → Buffer → Option (Nat × Buffer)
  | 0, bs => some (0, bs)
  | _ + 1, [] => none
  | w + 1, b :: bs =>
    match getLE w bs with
    | none => none
    | some (v, rest) => some (b + 256 * v, rest)

/-- Write the records of a sequence one after the other. -/
def putAll {α : Type} (wr : α → Buffer) : List α → Buffer
  | [] => []
  | a :: as => wr a ++ putAll wr as

/-- Read `n` records in a row; fails as soon as one of them fails. -/
def getAll {α : Type} (rd : Buffer → Option (α × Buffer)) :
    Nat → Buffer → Option (List α × Buffer)
  | 0, bs => some ([], bs)
  | n + 1, bs =>
    match rd bs with
    | none => none
    | some (a, rest) =>
      match getAll rd n rest with
      | none => none
      | some (as, rest2) => some (a :: as, rest2)

/-- A counted array: `count:uint32` followed by the `count` records. -/
def putCounted {α : Type} (wr : α → Buffer) (xs : List α) : Buffer :=
  putLE 4 xs.length ++ putAll wr xs

/-- Read a counted array. -/
def getCounted {α : Type} (rd : Buffer → Option (α × Buffer)) (bs : Buffer) :
    Option (List α × Buffer) :=
  match getLE 4 bs with
  | none => none
  | some (n, rest) => getAll rd n rest

/-- The elements of a `std::set<GIntBig>` in iteration order, smallest first. -/
def idList (s : Finset Int) : List Int :=
  Quot.liftOn s.val (fun l => l.insertionSort (· ≤ ·)) (fun a b h =>
    List.eq_of_perm_of_sorted
      (((List.perm_insertionSort (· ≤ ·) a).trans h).trans (List.perm_insertionSort (· ≤ ·) b).symm)
      (List.sorted_insertionSort (· ≤ ·) a) (List.sorted_insertionSort (· ≤ ·) b))

/-- An `int64` feature id, two's complement in 8 bytes. -/
def putId (id : Int) : Buffer :=
  putLE 8 (id % 2 ^ 64).toNat

/-- Read an `int64` feature id. -/
def getId (bs : Buffer) : Option (Int × Buffer) :=
  match getLE 8 bs with
  | none => none
  | some (v, rest) => some (if v < 2 ^ 63 then (v : Int) else (v : Int) - 2 ^ 64, rest)

/-- A point, `(float32, float32)`. -/
def putPoint (p : SimplePoint) : Buffer :=
  putLE 4 p.x ++ putLE 4 p.y

/-- Read a point. -/
def getPoint (bs : Buffer) : Option (SimplePoint × Buffer) :=
  match getLE 4 bs with
  | none => none
  | some (x, rest) =>
    match getLE 4 rest with
    | none => none
    | some (y, rest2) => some ({ x := x, y := y }, rest2)

/-- The `flags:uint8` of an item record: bit0 = valid, bit1 = is2D. -/
def itemFlags (a : VectorTileItem) : Nat :=
  (if a.m_valid then 1 else 0) + (if a.m_2d then 2 else 0)

/-- Modelled from the spec: `VectorTileItem::save` (body in geometry.cpp).  The
item record of spec 4.3: `idCount:uint32 + ids:int64[idCount]` (the set is
written in ascending order), `pointCount:uint32 + points`, `indexCount:uint32 +
indices:uint16[]`, `ringCount:uint32` then per ring `ringIndexCount:uint32 +
uint16[]`, `centroidCount:uint32 + centroids`, `flags:uint8`. -/
def VectorTileItem.save (a : VectorTileItem) : Buffer :=
  putCounted putId (idList a.m_ids) ++
  (putCounted putPoint a.m_points ++
  (putCounted (putLE 2) a.m_indices ++
  (putCounted (putCounted (putLE 2)) a.m_borderIndices ++
  (putCounted putPoint a.m_centroids ++
   putLE 1 (itemFlags a)))))

/-- Modelled from the spec: `VectorTileItem::load` (body in geometry.cpp): read
one item record, failing when the buffer ends before the record does; flag bits
other than bit0 and bit1 are ignored.  Returns the item and the unread rest. -/
def VectorTileItem.load (bs : Buffer) : Option (VectorTileItem × Buffer) :=
  match getCounted getId bs with
  | none => none
  | some (ids, r1) =>
  match getCounted getPoint r1 with
  | none => none
  | some (points, r2) =>
  match getCounted (getLE 2) r2 with
  | none => none
  | some (indices, r3) =>
  match getCounted (getCounted (getLE 2)) r3 with
  | none => none
  | some (rings, r4) =>
  match getCounted getPoint r4 with
  | none => none
  | some (centroids, r5) =>
  match getLE 1 r5 with
  | none => none
  | some (flags, r6) =>
    some ({ m_points := points, m_indices := indices, m_borderIndices := rings,
            m_centroids := centroids, m_ids := ids.toFinset,
            m_valid := decide (flags % 2 = 1), m_2d := decide (flags / 2 % 2 = 1) }, r6)

/-- Modelled from the spec: `VectorTile::save` (body in geometry.cpp): "one
fixed header then a sequence of item records".  The spec does not list the
header fields; it is taken to be the item count as `uint32`, the one datum a
reader needs to tell a complete buffer from a truncated one. -/
def VectorTile.save (t : VectorTile) : Buffer :=
  putCounted VectorTileItem.save t.m_items

/-- Modelled from the spec: `VectorTile::load` (body in geometry.cpp): "load
into a scratch tile, swap on full success".  Returns the flag and the target
tile after the call: on success the target holds the items read and is valid,
on failure it is as before. -/
def VectorTile.load (t : VectorTile) (bs : Buffer) : Bool × VectorTile :=
  match getCounted VectorTileItem.load bs with
  | none => (false, t)
  | some (items, _) => (true, { m_items := items, m_valid := true })

/-- Value ranges of the C++ field types of an item and of the `uint32` counts
of its record: ids are `int64`, indices `uint16`, coordinates 32-bit patterns,
and every sequence has fewer than `2 ^ 32` elements. -/
def VectorTileItem.fits (a : VectorTileItem) : Prop :=
  a.m_ids.card < 2 ^ 32 ∧ (∀ id ∈ a.m_ids, -(2 : Int) ^ 63 ≤ id ∧ id < 2 ^ 63) ∧
  a.m_points.length < 2 ^ 32 ∧ (∀ p ∈ a.m_points, p.x < 2 ^ 32 ∧ p.y < 2 ^ 32) ∧
  a.m_indices.length < 2 ^ 32 ∧ (∀ i ∈ a.m_indices, i < 2 ^ 16) ∧
  a.m_borderIndices.length < 2 ^ 32 ∧
  (∀ r ∈ a.m_borderIndices, r.length < 2 ^ 32 ∧ ∀ i ∈ r, i < 2 ^ 16) ∧
  a.m_centroids.length < 2 ^ 32 ∧ (∀ p ∈ a.m_centroids, p.x < 2 ^ 32 ∧ p.y < 2 ^ 32)

instance (a : VectorTileItem) : Decidable a.fits := by
  unfold VectorTileItem.fits
  infer_instance

/-- A tile that its binary form can hold: fewer than `2 ^ 32` items, each within
the ranges of `VectorTileItem.fits`. -/
def VectorTile.fits (t : VectorTile) : Prop :=
  t.m_items.length < 2 ^ 32 ∧ ∀ a ∈ t.m_items, a.fits

instance (t : VectorTile) : Decidable t.fits := by
  unfold VectorTile.fits
  infer_instance

/-- A writer/reader pair recovers `a` from any buffer that starts with the
bytes written for `a`, and leaves the bytes after them unread. -/
def RoundTrips {α : Type} (wr : α → Buffer) (rd : Buffer → Option (α × Buffer)) (a : α) : Prop :=
  ∀ rest, rd (wr a ++ rest) = some (a, rest)

/-- The reader fails on every buffer that stops short of the bytes written for
`a`: on `q` whenever `q ++ t` with `t` non-empty is what was written. -/
def FailsShort {α : Type} (wr : α → Buffer) (rd : Buffer → Option (α × Buffer)) (a : α) : Prop :=
  ∀ q t, t ≠ [] → q ++ t = wr a → rd q = none

/-! ## Edit geometries -/

/-- Type tags of the edit geometries, `enum class EditGeometry::Type` of
geometry.h: `POINT = 1, LINE, POLYGON, MULTIPOINT, MULTILINE, MULTIPOLYGON`. -/
inductive EditType where
  | POINT
  | LINE
  | POLYGON
  | MULTIPOINT
  | MULTILINE
  | MULTIPOLYGON
deriving DecidableEq, Repr

/-- Value of an enumerator of `EditGeometry::Type`: `POINT = 1`, each following
enumerator one more than the one before it. -/
def EditType.value : EditType → Nat
  | .POINT => 1
  | .LINE => 2
  | .POLYGON => 3
  | .MULTIPOINT => 4
  | .MULTILINE => 5
  | .MULTIPOLYGON => 6

/-- The six classes of geometry.h that derive from `EditGeometry`. -/
inductive EditClass where
  | EditPoint
  | EditLine
  | EditPolygon
  | EditMultiPoint
  | EditMultiLine
  | EditMultiPolygon
deriving DecidableEq, Repr

/-- The `type()` override of each class, written inline in geometry.h:
`virtual enum Type type() const override { return Type::POINT; }` in
`EditPoint`, and likewise `LINE`, `POLYGON`, `MULTIPOINT`, `MULTILINE`,
`MULTIPOLYGON` in the other five. -/
def EditClass.type : EditClass → EditType
  | .EditPoint => .POINT
  | .EditLine => .LINE
  | .EditPolygon => .POLYGON
  | .EditMultiPoint => .MULTIPOINT
  | .EditMultiLine => .MULTILINE
  | .EditMultiPolygon => .MULTIPOLYGON

/-- The class that reports a given tag. -/
def EditType.variant : EditType → EditClass
  | .POINT => .EditPoint
  | .LINE => .EditLine
  | .POLYGON => .EditPolygon
  | .MULTIPOINT => .EditMultiPoint
  | .MULTILINE => .EditMultiLine
  | .MULTIPOLYGON => .EditMultiPolygon

/-- Point with `double` coordinates, `OGRRawPoint` of GDAL.  The operations
modelled here only store and copy coordinates, so their type is a parameter. -/
structure OGRRawPoint (α : Type) where
  x : α
  y : α
deriving DecidableEq, Repr

/-- Vertex sequence: `using Line = std::vector<OGRRawPoint>` (geometry.h). -/
abbrev Line (α : Type) := List (OGRRawPoint α)

/-- Ring sequence: `using Polygon = std::vector<Line>` (geometry.h). -/
abbrev Polygon (α : Type) := List (Line α)

/-- Identifier of a selected vertex, `struct _ngsPointId` of api.h:
`int pointId; char isHole`. -/
structure ngsPointId where
  pointId : Int
  isHole : Bool
deriving DecidableEq, Repr

/-- The constant `NOT_FOUND` of ngstore/util/constants.h, which is not among
the sources; it marks an empty selection and is taken to be -1. -/
def NOT_FOUND : Int := -1

/-- Data members of `class EditPolygon` (geometry.h) with those it inherits
from `EditGeometry`: `EditGeometryData<Polygon> m_data; int m_selectedRing;
ngsPointId m_selectedPoint; bool m_isDragging`. -/
structure EditPolygon (α : Type) where
  m_data : EditGeometryData (Polygon α)
  m_selectedRing : Int
  m_selectedPoint : ngsPointId
  m_isDragging : Bool
deriving DecidableEq, Repr

namespace EditPolygon

variable {α : Type}

/-- Modelled from the spec: the constructor `EditPolygon()` (body in
geometry.cpp): no rings, nothing in the history, "no selection, not
dragging". -/
def create : EditPolygon α :=
  { m_data := EditGeometryData.construct [],
    m_selectedRing := NOT_FOUND,
    m_selectedPoint := { pointId := NOT_FOUND, isHole := false },
    m_isDragging := false }

/-- Modelled from the spec: `EditPolygon::init(x1, y1, x2, y2)` (body in
geometry.cpp) on a new object: it "seeds a 4-point rectangle ring", and "the
very first state (geometry at construction) must be pushed once before any user
edit".  The spec does not give the order of the corners; `seed` stands for the
ring set built from the two corners. -/
def init (seed : α → α → α → α → Polygon α) (x1 y1 x2 y2 : α) : EditPolygon α :=
  { (create : EditPolygon α) with
    m_data := EditGeometryData.saveState
      (EditGeometryData.setData (EditGeometryData.construct []) (seed x1 y1 x2 y2)) }

/-- Modelled from the spec: `EditPolygon::addPoint(x, y, log)` (body in
geometry.cpp): the vertex is appended or inserted "depending on current
selection context", the call "returns false if the geometry type does not
support point addition in the current state", and "log controls whether a
history snapshot is pushed".  The spec leaves open where the vertex goes and
what is selected afterwards: `place` gives the new ring set and selection for
the current ring set, selection and point, or `none` when no vertex can be
added. -/
def addPoint
    (place : Polygon α → ngsPointId → Int → α → α → Option (Polygon α × ngsPointId × Int))
    (e : EditPolygon α) (x y : α) (log : Bool) : Bool × EditPolygon α :=
  match place e.m_data.m_data e.m_selectedPoint e.m_selectedRing x y with
  | none => (false, e)
  | some (rings, pt, ring) =>
    let d := EditGeometryData.setData e.m_data rings
    (true, { e with m_data := if log then EditGeometryData.saveState d else d,
                    m_selectedPoint := pt, m_selectedRing := ring })

/-- Modelled from the spec: `EditPolygon::undo()` (body in geometry.cpp):
"canUndo/canRedo/undo/redo operate on the variant's EditGeometryData". -/
def undo (e : EditPolygon α) : Option (Bool × EditPolygon α) :=
  match EditGeometryData.undo e.m_data with
  | none => none
  | some (b, d) => some (b, { e with m_data := d })

end EditPolygon

/-! ## Envelope -/

/-- Data members of `class Envelope` (geometry.h): `double m_minX, m_minY,
m_maxX, m_maxY`.  The bounds are only compared, so they live in any linear
order, as the doubles other than NaN do. -/
structure Envelope (α : Type) where
  m_minX : α
  m_minY : α
  m_maxX : α
  m_maxY : α
deriving DecidableEq, Repr

/-- Modelled from the spec: `Envelope::merge` (body in geometry.cpp): "union,
widening in place, returns self".  The result is the receiver after the call,
which is also what the returned reference denotes. -/
def Envelope.merge {α : Type} [LinearOrder α] (a other : Envelope α) : Envelope α :=
  { m_minX := min a.m_minX other.m_minX,
    m_minY := min a.m_minY other.m_minY,
    m_maxX := max a.m_maxX other.m_maxX,
    m_maxY := max a.m_maxY other.m_maxY }

/-- Modelled from the spec: `Envelope::contains` (body in geometry.cpp): the
other box lies inside the receiver, bounds included. -/
def Envelope.contains {α : Type} [LinearOrder α] (a other : Envelope α) : Bool :=
  decide (a.m_minX ≤ other.m_minX) && decide (a.m_minY ≤ other.m_minY) &&
    decide (other.m_maxX ≤ a.m_maxX) && decide (other.m_maxY ≤ a.m_maxY)

/-! ## Strings -/

/-- A `std::string` or C string, held as its sequence of characters. -/
abbrev StdString := List Char

/-- Modelled from the spec: one character of the helper `toLower` of
stringutil.h, which is not among the sources.  An upper-case letter `A`..`Z`
(codes 65..90) becomes the lower-case letter 32 codes further on, every other
character stays, as `tolower` does in the C locale. -/
def toLowerChar (c : Char) : Char :=
  if 65 ≤ c.toNat ∧ c.toNat ≤ 90 then Char.ofNat (c.toNat + 32) else c

/-- Modelled from the spec: the helper `toLower` of stringutil.h, applied by
`Options` to every key: the string with each character lower-cased. -/
def toLower (s : StdString) : StdString :=
  s.map toLowerChar

/-- Two characters are the same letter up to case: they are equal, or one is an
upper-case letter `A`..`Z` and the other the lower-case letter that belongs to
it.  Written without `toLowerChar`. -/
def sameLetter (a b : Char) : Bool :=
  a == b || (decide (65 ≤ a.toNat ∧ a.toNat ≤ 90) && b.toNat == a.toNat + 32) ||
    (decide (65 ≤ b.toNat ∧ b.toNat ≤ 90) && a.toNat == b.toNat + 32)

/-- Two keys are equal up to letter case: they have the same length and at every
position the same letter up to case. -/
def eqUpToCase : StdString → StdString → Bool
  | [], [] => true
  | a :: as, b :: bs => sameLetter a b && eqUpToCase as bs
  | _, _ => false

/-! ## Track points (storefeatureclass.cpp) -/

/-- Least value of a C++ `int` (32 bits, two's complement). -/
def INT32_MIN : Int := -2147483648

/-- Greatest value of a C++ `int`. -/
def INT32_MAX : Int := 2147483647

/-- The value of `++x` on an `int`: `x + 1` brought back into the 32-bit range,
so that `++` at `INT32_MAX` gives `INT32_MIN`.  C++ leaves that overflow
undefined and two's complement hardware wraps; in either case the result is
not `INT32_MAX + 1`, which no `int` holds. -/
def incInt32 (x : Int) : Int :=
  (x + 1 + 2 ^ 31) % 2 ^ 32 - 2 ^ 31

/-- The three counters of `TracksTable`, initialised by its constructor to
`max(track_fid)` of the table (or 0), 0 and 0.  They are `int` members (the
declaration is in storefeatureclass.h, which is not among the sources; the
constructor stores the `int` result of `GetFieldAsInteger` in the first), held
here as the integers they denote. -/
structure TracksTable where
  m_lastTrackId : Int
  m_lastSegmentId : Int
  m_lastSegmentPtId : Int
deriving DecidableEq, Repr

/-- Every counter holds a value of its type `int`. -/
def TracksTable.inRange (t : TracksTable) : Prop :=
  (INT32_MIN ≤ t.m_lastTrackId ∧ t.m_lastTrackId ≤ INT32_MAX) ∧
  (INT32_MIN ≤ t.m_lastSegmentId ∧ t.m_lastSegmentId ≤ INT32_MAX) ∧
  (INT32_MIN ≤ t.m_lastSegmentPtId ∧ t.m_lastSegmentPtId ≤ INT32_MAX)

/-- The three ids `TracksTable::addPoint` writes into the new feature:
`track_fid`, `track_seg_id`, `track_seg_point_id`. -/
structure TrackPointIds where
  track_fid : Int
  track_seg_id : Int
  track_seg_point_id : Int
deriving DecidableEq, Repr

/-- The constructor `TracksTable::TracksTable`: the track id is the result of
`SELECT max(track_fid) FROM nga_tracks` when the query gives one and 0
otherwise; segment id and point id start at 0. -/
def TracksTable.create (maxTrackFid : Option Int) : TracksTable :=
  { m_lastTrackId := maxTrackFid.getD 0, m_lastSegmentId := 0, m_lastSegmentPtId := 0 }

/-- The counter part of `TracksTable::addPoint`:
`if(newTrack) { track_fid = ++m_lastTrackId; m_lastSegmentId = 0;
m_lastSegmentPtId = 0; } else track_fid = m_lastTrackId;`
`if(newSegment) { track_seg_id = ++m_lastSegmentId; m_lastSegmentPtId = 0; }
else track_seg_id = m_lastSegmentId;`
`track_seg_point_id = ++m_lastSegmentPtId;`.
Each `++` is that of an `int`, `incInt32`.  Returns the ids written and the
table after the call. -/
def TracksTable.addPoint (t : TracksTable) (newTrack newSegment : Bool) :
    TrackPointIds × TracksTable :=
  let t1 : TracksTable :=
    if newTrack then
      { m_lastTrackId := incInt32 t.m_lastTrackId, m_lastSegmentId := 0, m_lastSegmentPtId := 0 }
    else t
  let t2 : TracksTable :=
    if newSegment then
      { t1 with m_lastSegmentId := incInt32 t1.m_lastSegmentId, m_lastSegmentPtId := 0 }
    else t1
  let t3 : TracksTable := { t2 with m_lastSegmentPtId := incInt32 t2.m_lastSegmentPtId }
  ({ track_fid := t3.m_lastTrackId, track_seg_id := t3.m_lastSegmentId,
     track_seg_point_id := t3.m_lastSegmentPtId }, t3)

/-- A sequence of `addPoint` calls, given by their `(newTrack, newSegment)`
flags: the ids written by each call, in call order. -/
def TracksTable.addPoints : TracksTable → List (Bool × Bool) → List TrackPointIds
  | _, [] => []
  | t, (nt, ns) :: rest =>
    (TracksTable.addPoint t nt ns).1 :: TracksTable.addPoints (TracksTable.addPoint t nt ns).2 rest

/-! ## Number of threads (options.cpp) -/

/-- The function `getNumberThreads` of options.cpp.  `cpus` is the result of
`CPLGetNumCPUs()`, `numThreadsStr` the value of the configuration option
`GDAL_NUM_THREADS` (`none` for a null pointer), `isAllCpus` the test
`compare(numThreadsStr, "ALL_CPUS")` and `atoi` the C library function; the
cast to `unsigned char` keeps the value modulo 256. -/
def getNumberThreads (cpus : Int) (numThreadsStr : Option StdString)
    (isAllCpus : StdString → Bool) (atoi : StdString → Int) : Nat :=
  let numThreads0 : Nat := (cpus % 256).toNat
  let numThreads1 : Nat :=
    match numThreadsStr with
    | some s => if !isAllCpus s then (atoi s % 256).toNat else numThreads0
    | none => numThreads0
  if numThreads1 < 2 then 1 else numThreads1

/-! ## Archives (archive.cpp) -/

/-- The function `Archive::pathPrefix`: `"/vsizip/"` for
`CAT_CONTAINER_ARCHIVE_ZIP`, the empty string for every other type.  The
enumeration `ngsCatalogObjectType` is declared outside the sources: a type is
held by its enumerator value and the value of `CAT_CONTAINER_ARCHIVE_ZIP` is a
parameter. -/
def Archive.pathPrefix (CAT_CONTAINER_ARCHIVE_ZIP : Int) (type : Int) : StdString :=
  if type = CAT_CONTAINER_ARCHIVE_ZIP then "/vsizip/".toList else []

/-- The members of `Object` that `Archive` uses: `m_path` and `m_type`. -/
structure Archive where
  m_type : Int
  m_path : StdString
deriving DecidableEq, Repr

/-- The constructor `Archive::Archive(parent, type, name, path)`: the base
constructors store `path` in `m_path`, then `m_type = type;
m_path = pathPrefix(type) + m_path;`. -/
def Archive.create (CAT_CONTAINER_ARCHIVE_ZIP : Int) (type : Int) (path : StdString) : Archive :=
  { m_type := type, m_path := Archive.pathPrefix CAT_CONTAINER_ARCHIVE_ZIP type ++ path }

/-- The call `s.substr(pos)` of `std::string`: the characters from position
`pos` on; it throws (`none`) when `pos` is beyond the end. -/
def substr (s : StdString) (pos : Nat) : Option StdString :=
  if pos ≤ s.length then some (s.drop pos) else none

/-- The first statement of `Archive::destroy`:
`sysPath = m_path.substr(Archive::pathPrefix(m_type).size())`. -/
def Archive.sysPath (CAT_CONTAINER_ARCHIVE_ZIP : Int) (a : Archive) : Option StdString :=
  substr a.m_path (Archive.pathPrefix CAT_CONTAINER_ARCHIVE_ZIP a.m_type).length

/-! ## Data store (datastore.cpp) -/

/-- The enumerators of `ngsErrorCodes` that datastore.cpp returns. -/
inductive ngsErrorCodes where
  | SUCCESS
  | UNEXPECTED_ERROR
  | PATH_NOT_SPECIFIED
  | INVALID_PATH
  | UNSUPPORTED_GDAL_DRIVER
  | CREATE_DIR_FAILED
  | CREATE_DB_FAILED
deriving DecidableEq, Repr

/-- The members of `DataStore` read and written by `open` and `create`: the
path and the dataset pointer, `none` standing for `nullptr`. -/
structure DataStore where
  m_sPath : StdString
  m_poDS : Option Nat
deriving DecidableEq, Repr

/-- What the GDAL/CPL calls of `open` and `create` answer: `CPLCheckForFile`
(file found), `GetDriverByName("GPKG")` (driver found), `GDALOpenEx` (the
dataset, or `nullptr`), `VSIMkdir` (directory made) and the driver's `Create`
(the dataset, or `nullptr`). -/
structure GdalCalls where
  checkForFile : StdString → Bool
  hasGpkgDriver : Bool
  openEx : StdString → Option Nat
  mkdir : StdString → Bool
  driverCreate : StdString → Option Nat

/-- The path of the main database: `m_sPath + PATH_SEPARATOR MAIN_DATABASE`. -/
def DataStore.fullPath (s : DataStore) : StdString :=
  s.m_sPath ++ "/ngm.gpkg".toList

/-- The function `DataStore::open` of datastore.cpp: the returned code and the
store after the call. -/
def DataStore.open (g : GdalCalls) (s : DataStore) : ngsErrorCodes × DataStore :=
  if s.m_sPath.isEmpty then (.PATH_NOT_SPECIFIED, s)
  else if g.checkForFile s.fullPath != true then (.INVALID_PATH, s)
  else if !g.hasGpkgDriver then (.UNSUPPORTED_GDAL_DRIVER, s)
  else (.SUCCESS, { s with m_poDS := g.openEx s.fullPath })

/-- The function `DataStore::create` of datastore.cpp. -/
def DataStore.create (g : GdalCalls) (s : DataStore) : ngsErrorCodes × DataStore :=
  if s.m_poDS.isSome then (.UNEXPECTED_ERROR, s)
  else if s.m_sPath.isEmpty then (.PATH_NOT_SPECIFIED, s)
  else if !g.hasGpkgDriver then (.UNSUPPORTED_GDAL_DRIVER, s)
  else if !g.mkdir s.m_sPath then (.CREATE_DIR_FAILED, s)
  else
    match g.driverCreate s.fullPath with
    | none => (.CREATE_DB_FAILED, { s with m_poDS := none })
    | some ds => (.SUCCESS, { s with m_poDS := some ds })

/-- The function `DataStore::openOrCreate` of datastore.cpp:
`if(open() != SUCCESS) return create(); return open();`. -/
def DataStore.openOrCreate (g : GdalCalls) (s : DataStore) : ngsErrorCodes × DataStore :=
  let r := DataStore.open g s
  if r.1 ≠ .SUCCESS then DataStore.create g r.2 else DataStore.open g r.2

/-! ## Options (options.cpp) -/

/-- The member `std::map<std::string, std::string> m_options` of `Options`: a
finite map from keys to values, one entry per key. -/
structure Options where
  m_options : AList (fun _ : StdString => StdString)
deriving DecidableEq

namespace Options

/-- The constant `MAX_OPTION_LEN` of options.cpp. -/
def MAX_OPTION_LEN : Nat := 255

/-- An `Options` object without entries. -/
def empty : Options := { m_options := ∅ }

/-- The function `Options::add(key, value)`:
`newKey = toLower(key); m_options[newKey] = value;`.  The helper `toLower` of
stringutil.h is declared outside the sources and is a parameter. -/
def add (toLower : StdString → StdString) (o : Options) (key value : StdString) : Options :=
  { m_options := o.m_options.insert (toLower key) value }

/-- The function `Options::asString(key, defaultOption)`: the value found under
`toLower(key)`, or `defaultOption` when `find` reaches `end()`. -/
def asString (toLower : StdString → StdString) (o : Options) (key defaultOption : StdString) :
    StdString :=
  match o.m_options.lookup (toLower key) with
  | none => defaultOption
  | some v => v

/-- The function `Options::append(other)`:
`m_options.insert(other.m_options.begin(), other.m_options.end())`, the range
insertion of `std::map`, which inserts each element of the range whose key is
not in the map yet. -/
def append (o other : Options) : Options :=
  { m_options := other.m_options.entries.foldl
      (fun m e => if e.1 ∈ m then m else m.insert e.1 e.2) o.m_options }

/-- The loop of the constructor over the first `n` characters of an option:
characters go to the key until `'='` or `':'` is met; the value is then
everything after that character (`value = option + 1 + j`), and stays empty
when the `n` characters hold no separator. -/
def scanOption : Nat → StdString → StdString × StdString
  | 0, _ => ([], [])
  | _ + 1, [] => ([], [])
  | n + 1, c :: cs =>
    if c = '=' ∨ c = ':' then ([], cs)
    else ((c :: (scanOption n cs).1), (scanOption n cs).2)

/-- Key and value the constructor takes from one option string:
`len = CPLStrnlen(option, MAX_OPTION_LEN)` and the loop over `j < len`. -/
def parseOption (option : StdString) : StdString × StdString :=
  scanOption (min option.length MAX_OPTION_LEN) option

/-- The constructor `Options::Options(char **options)`: nothing for a null
pointer, otherwise `add(key, value)` for each string in turn. -/
def create (toLower : StdString → StdString) (options : Option (List StdString)) : Options :=
  match options with
  | none => empty
  | some l => l.foldl (fun o s => add toLower o (parseOption s).1 (parseOption s).2) empty

end Options

/-! ## Hiding the remote id field (storefeatureclass.cpp) -/

/-- A table field, `struct _Field` of table.h: `m_name`, `m_originalName`,
`m_alias` and the `OGRFieldType m_type`, held by its enumerator value. -/
structure Field where
  m_name : StdString
  m_originalName : StdString
  m_alias : StdString
  m_type : Nat
deriving DecidableEq, Repr

/-- The function `StoreTable::fillFields`, applied to the field list that
`Table::fillFields()` has just produced:
`if(compare(m_fields.back().m_name, REMOTE_ID_KEY)) m_fields.pop_back();`.
The helper `compare` of stringutil.h and the constant `REMOTE_ID_KEY` are
declared outside the sources and are parameters; `none` stands for `back()` on
an empty vector, which C++ leaves undefined. -/
def StoreTable.fillFields (compare : StdString → StdString → Bool) (REMOTE_ID_KEY : StdString)
    (m_fields : List Field) : Option (List Field) :=
  match m_fields.getLast? with
  | none => none
  | some f => if compare f.m_name REMOTE_ID_KEY then some m_fields.dropLast else some m_fields

/-- The function `StoreFeatureClass::fillFields`, which repeats the body of
`StoreTable::fillFields`. -/
def StoreFeatureClass.fillFields (compare : StdString → StdString → Bool)
    (REMOTE_ID_KEY : StdString) (m_fields : List Field) : Option (List Field) :=
  match m_fields.getLast? with
  | none => none
  | some f => if compare f.m_name REMOTE_ID_KEY then some m_fields.dropLast else some m_fields

/-! ## Sending track points (storefeatureclass.cpp) -/

/-- The largest `GIntBig`, `std::numeric_limits<GIntBig>::max()`. -/
def INT64_MAX : Int := 2 ^ 63 - 1

/-- The variables of the loop of `TracksTable::sync`: the rows in `payload`
(by FID), `first`, `last` and `updateWhere` (each condition
`fid >= first AND fid <= last` held as the pair of its bounds).  `accepted` is
not a variable of the code: it records the payloads for which
`sendTrackPoints` returned true. -/
structure SyncState where
  payload : List Int
  first : Int
  last : Int
  updateWhere : List (Int × Int)
  accepted : List (List Int)
deriving DecidableEq, Repr

/-- The state before the loop: an empty payload, `first = max()`, `last = 0`. -/
def SyncState.init : SyncState :=
  { payload := [], first := INT64_MAX, last := 0, updateWhere := [], accepted := [] }

/-- C1: `a < b` for tiles holds exactly when the tuple
`(a.x, a.y, a.z, a.crossExtent)` comes before `(b.x, b.y, b.z, b.crossExtent)`
in lexicographic order, x first, then y, then z, then crossExtent. -/
theorem Tile.lt_iff_lexPrecedes (a b : Tile) :
    Tile.lt a b = true ↔ lexPrecedes a.key b.key := by
  simp only [Tile.lt, Tile.key, lexPrecedes, Prod.lex_def, Bool.or_eq_true, Bool.and_eq_true,
    decide_eq_true_eq, beq_iff_eq]
  tauto

/-- C2: `operator<` on tiles is a strict total order consistent with
`operator==`: it is irreflexive and transitive, exactly one of `a < b`,
`a == b`, `b < a` holds, `a == b` means that all four fields agree, and two
tiles are equivalent as map keys (neither is below the other) exactly when all
four fields agree. -/
theorem Tile.lt_strict_total_order (a b c : Tile) :
    Tile.lt a a = false ∧
    (Tile.lt a b = true → Tile.lt b c = true → Tile.lt a c = true) ∧
    ((Tile.lt a b = true ∧ Tile.eq a b = false ∧ Tile.lt b a = false) ∨
     (Tile.lt a b = false ∧ Tile.eq a b = true ∧ Tile.lt b a = false) ∨
     (Tile.lt a b = false ∧ Tile.eq a b = false ∧ Tile.lt b a = true)) ∧
    (Tile.eq a b = true ↔
      a.x = b.x ∧ a.y = b.y ∧ a.z = b.z ∧ a.crossExtent = b.crossExtent) ∧
    ((Tile.lt a b = false ∧ Tile.lt b a = false) ↔
      a.x = b.x ∧ a.y = b.y ∧ a.z = b.z ∧ a.crossExtent = b.crossExtent) := by
  simp only [Tile.lt, Tile.eq, Bool.or_eq_true, Bool.and_eq_true, Bool.or_eq_false_iff,
    Bool.and_eq_false_iff, decide_eq_true_eq, decide_eq_false_iff_not, beq_iff_eq,
    beq_eq_false_iff_ne, ne_eq]
  omega

/-! ## Undo/redo history -/

namespace EditGeometryData

variable {T : Type}

theorem saveState_of_cursor_last (s : EditGeometryData T)
    (h : s.m_history.length ≤ s.m_currentEditStep + 1) :
    saveState s =
      { m_data := s.m_data, m_history := s.m_history ++ [s.m_data],
        m_currentEditStep := s.m_history.length } := by
  simp [saveState, List.take_of_length_le h]

theorem saveAll_cons (ds : List T) (s : EditGeometryData T) (d : T)
    (h : s.m_history.length ≤ s.m_currentEditStep + 1) :
    saveAll s (d :: ds) =
      { m_data := (d :: ds).getLast (List.cons_ne_nil d ds),
        m_history := s.m_history ++ d :: ds,
        m_currentEditStep := s.m_history.length + ds.length } := by
  induction ds generalizing s d with
  | nil =>
    have hs : (setData s d).m_history.length ≤ (setData s d).m_currentEditStep + 1 := h
    rw [saveAll, saveState_of_cursor_last _ hs]
    simp [saveAll, setData]
  | cons e es ih =>
    have hs : (setData s d).m_history.length ≤ (setData s d).m_currentEditStep + 1 := h
    rw [saveAll, saveState_of_cursor_last _ hs, ih]
    · simp [setData]
      omega
    · simp [setData]

theorem undoRun_at_zero (m : Nat) (x : T) (h : List T) :
    undoRun m { m_data := x, m_history := h, m_currentEditStep := 0 } =
      some (List.replicate m false,
        { m_data := x, m_history := h, m_currentEditStep := 0 }) := by
  induction m with
  | zero => rfl
  | succ k ih => simp [undoRun, undo, ih, List.replicate_succ]

theorem undoRun_from (c m : Nat) (x d : T) (h : List T) (hc : c < (d :: h).length) :
    undoRun (c + m) { m_data := x, m_history := d :: h, m_currentEditStep := c } =
      some (List.replicate c true ++ List.replicate m false,
        { m_data := if c = 0 then x else d, m_history := d :: h, m_currentEditStep := 0 }) := by
  induction c generalizing x with
  | zero => simp [undoRun_at_zero]
  | succ k ih =>
    have hk : k < (d :: h).length := by omega
    have hget : (d :: h)[k]? = some ((d :: h)[k]) := List.getElem?_eq_getElem hk
    have hstep : undo { m_data := x, m_history := d :: h, m_currentEditStep := k + 1 } =
        some (true, { m_data := (d :: h)[k], m_history := d :: h, m_currentEditStep := k }) := by
      simp only [undo, Nat.add_sub_cancel, hget]
      simp
    rw [show k + 1 + m = (k + m) + 1 by omega, undoRun, hstep]
    simp only [ih _ hk]
    by_cases hz : k = 0
    · subst hz
      simp [List.replicate_succ]
    · simp [hz, List.replicate_succ]

end EditGeometryData

/-- C3: on a new `EditGeometryData` (any payload type, any initial payload),
after `N = ds.length + 1` calls of `saveState()` (the payload being `d`, then
the elements of `ds`, at the successive calls), the next `N - 1` calls of
`undo()` return true, every one of the `m` calls after them returns false, and
whatever `m` is the state reached has the first saved payload `d` as current
data, the full history and cursor 0: the failing calls change nothing. -/
theorem EditGeometryData.undo_after_saves {T : Type} (d0 d : T) (ds : List T) (m : Nat) :
    EditGeometryData.undoRun (ds.length + m)
        (EditGeometryData.saveAll (EditGeometryData.construct d0) (d :: ds)) =
      some (List.replicate ds.length true ++ List.replicate m false,
        { m_data := d, m_history := d :: ds, m_currentEditStep := 0 }) := by
  rw [EditGeometryData.saveAll_cons ds _ d (by simp [EditGeometryData.construct])]
  simp only [EditGeometryData.construct, List.nil_append, List.length_nil, Nat.zero_add]
  rw [EditGeometryData.undoRun_from ds.length m _ d ds (by simp)]
  cases ds with
  | nil => simp
  | cons e es => simp

namespace EditGeometryData

variable {T : Type}

theorem lastIndex_of_pos (s : EditGeometryData T) (h1 : 0 < s.m_history.length)
    (h2 : s.m_history.length < SIZE_MOD) : s.lastIndex = s.m_history.length - 1 := by
  unfold lastIndex
  rw [show s.m_history.length + SIZE_MOD - 1 = (s.m_history.length - 1) + SIZE_MOD by omega,
    Nat.add_mod_right, Nat.mod_eq_of_lt (by omega)]

theorem lastIndex_le (s : EditGeometryData T) (h1 : 0 < s.m_history.length) :
    s.lastIndex ≤ s.m_history.length - 1 := by
  unfold lastIndex
  rw [show s.m_history.length + SIZE_MOD - 1 = (s.m_history.length - 1) + SIZE_MOD by omega,
    Nat.add_mod_right]
  exact Nat.mod_le _ _

theorem undo_true_inv (s s1 : EditGeometryData T) (hu : undo s = some (true, s1)) :
    0 < s.m_currentEditStep ∧
      s.m_history[s.m_currentEditStep - 1]? = some s1.m_data ∧
      s1 = { m_data := s1.m_data, m_history := s.m_history,
             m_currentEditStep := s.m_currentEditStep - 1 } := by
  by_cases hz : s.m_currentEditStep = 0
  · simp [undo, hz] at hu
  · cases hd : s.m_history[s.m_currentEditStep - 1]? with
    | none => simp [undo, hz, hd] at hu
    | some d =>
      simp only [undo, hz, hd, if_false, Option.some.injEq, Prod.mk.injEq, true_and] at hu
      subst hu
      exact ⟨by omega, rfl, rfl⟩

/-- Every reachable state keeps the cursor inside the history, or at 0 when
the history is empty. -/
theorem reachable_cursor_bound (s : EditGeometryData T) (hr : Reachable s) :
    (s.m_history = [] ∧ s.m_currentEditStep = 0) ∨
      s.m_currentEditStep < s.m_history.length := by
  induction hr with
  | construct d => exact Or.inl ⟨rfl, rfl⟩
  | setData s d _ ih => exact ih
  | saveState s _ _ =>
    right
    simp [saveState]
  | undo s s1 b _ hu ih =>
    by_cases hz : s.m_currentEditStep = 0
    · simp only [EditGeometryData.undo, hz, if_true, Option.some.injEq, Prod.mk.injEq] at hu
      rw [← hu.2]
      exact ih
    · cases hd : s.m_history[s.m_currentEditStep - 1]? with
      | none => simp [EditGeometryData.undo, hz, hd] at hu
      | some d =>
        simp only [EditGeometryData.undo, hz, hd, if_false, Option.some.injEq,
          Prod.mk.injEq] at hu
        rw [← hu.2]
        right
        exact (List.getElem?_eq_some_iff.mp hd).1
  | redo s s1 b _ hu ih =>
    by_cases hz : s.m_currentEditStep = s.lastIndex
    · simp only [EditGeometryData.redo, hz, if_true, Option.some.injEq, Prod.mk.injEq] at hu
      rw [← hu.2]
      exact ih
    · cases hd : s.m_history[s.m_currentEditStep + 1]? with
      | none => simp [EditGeometryData.redo, hz, hd] at hu
      | some d =>
        simp only [EditGeometryData.redo, hz, hd, if_false, Option.some.injEq,
          Prod.mk.injEq] at hu
        rw [← hu.2]
        right
        exact (List.getElem?_eq_some_iff.mp hd).1

end EditGeometryData

/-- C4, refuted as stated: with history `[1, 2]`, cursor 1 and an unsaved edit
`7` as current data (a state reached from a new object by two saved edits and
one unsaved edit), `undo()` returns true and `redo()` returns true, but the
current data is then the snapshot `2`, not the `7` held before the undo. -/
theorem EditGeometryData.redo_after_undo_drops_unsaved_edit :
    EditGeometryData.setData
        (EditGeometryData.saveAll (EditGeometryData.construct (0 : Nat)) [1, 2]) 7 =
      { m_data := 7, m_history := [1, 2], m_currentEditStep := 1 } ∧
    EditGeometryData.undo
        (EditGeometryData.setData
          (EditGeometryData.saveAll (EditGeometryData.construct (0 : Nat)) [1, 2]) 7) =
      some (true, { m_data := 1, m_history := [1, 2], m_currentEditStep := 0 }) ∧
    EditGeometryData.redo
        ({ m_data := 1, m_history := [1, 2], m_currentEditStep := 0 } : EditGeometryData Nat) =
      some (true, { m_data := 2, m_history := [1, 2], m_currentEditStep := 1 }) ∧
    ({ m_data := 2, m_history := [1, 2], m_currentEditStep := 1 } : EditGeometryData Nat) ≠
      { m_data := 7, m_history := [1, 2], m_currentEditStep := 1 } := by
  decide

/-- C4, amended: in every state whose current data is the history entry at the
cursor (nothing unsaved; the history length fits `size_t`) and in which
`undo()` returns true, an immediately following `redo()` returns true and
gives back exactly the state before the undo: current data, history, cursor. -/
theorem EditGeometryData.redo_after_undo {T : Type} (s s1 : EditGeometryData T)
    (hlen : s.m_history.length < SIZE_MOD)
    (hsaved : s.m_history[s.m_currentEditStep]? = some s.m_data)
    (hu : EditGeometryData.undo s = some (true, s1)) :
    EditGeometryData.redo s1 = some (true, s) := by
  obtain ⟨hpos, _, hs1⟩ := EditGeometryData.undo_true_inv s s1 hu
  have hc : s.m_currentEditStep < s.m_history.length := (List.getElem?_eq_some_iff.mp hsaved).1
  have hh : s1.m_history = s.m_history := by rw [hs1]
  have hcur : s1.m_currentEditStep = s.m_currentEditStep - 1 := by rw [hs1]
  have hlast : s1.lastIndex = s.m_history.length - 1 := by
    rw [EditGeometryData.lastIndex_of_pos s1 (by rw [hh]; omega) (by rw [hh]; exact hlen), hh]
  have hne : ¬ s1.m_currentEditStep = s1.lastIndex := by rw [hlast, hcur]; omega
  have hidx : s1.m_currentEditStep + 1 = s.m_currentEditStep := by rw [hcur]; omega
  unfold EditGeometryData.redo
  rw [if_neg hne]
  simp only [hidx, hh, hsaved]

/-- Witness for C4 (amended): history `[1, 2]`, cursor 1, current data `2`. -/
theorem EditGeometryData.redo_after_undo_witness :
    EditGeometryData.redo
        ({ m_data := 1, m_history := [1, 2], m_currentEditStep := 0 } : EditGeometryData Nat) =
      some (true, { m_data := 2, m_history := [1, 2], m_currentEditStep := 1 }) :=
  EditGeometryData.redo_after_undo
    { m_data := 2, m_history := [1, 2], m_currentEditStep := 1 }
    { m_data := 1, m_history := [1, 2], m_currentEditStep := 0 }
    (by decide) (by decide) (by decide)

/-- C5: in a state `s` reached by a successful `undo()`, `saveState()` cuts the
history to the entries up to and including the cursor and appends a copy of
the current data, so that the history has `cursor + 2` entries, the cursor
moves to the last of them, which holds the current data, the current data is
untouched, and `canRedo()` is false: no redo state is left. -/
theorem EditGeometryData.saveState_after_undo {T : Type} (s0 s : EditGeometryData T)
    (hu : EditGeometryData.undo s0 = some (true, s)) :
    (EditGeometryData.saveState s).m_history =
        s.m_history.take (s.m_currentEditStep + 1) ++ [s.m_data] ∧
    (EditGeometryData.saveState s).m_history.length = s.m_currentEditStep + 2 ∧
    (EditGeometryData.saveState s).m_currentEditStep = s.m_currentEditStep + 1 ∧
    (EditGeometryData.saveState s).m_history[(EditGeometryData.saveState s).m_currentEditStep]? =
        some s.m_data ∧
    (EditGeometryData.saveState s).m_data = s.m_data ∧
    EditGeometryData.canRedo (EditGeometryData.saveState s) = false := by
  obtain ⟨hpos, hget, hs⟩ := EditGeometryData.undo_true_inv s0 s hu
  have hc0 : s0.m_currentEditStep - 1 < s0.m_history.length :=
    (List.getElem?_eq_some_iff.mp hget).1
  have hh : s.m_history = s0.m_history := by rw [hs]
  have hcur : s.m_currentEditStep = s0.m_currentEditStep - 1 := by rw [hs]
  have hc : s.m_currentEditStep < s.m_history.length := by rw [hh, hcur]; exact hc0
  have hlen : (EditGeometryData.saveState s).m_history.length = s.m_currentEditStep + 2 := by
    simp only [EditGeometryData.saveState, List.length_append, List.length_take,
      List.length_singleton]
    omega
  have hcur2 : (EditGeometryData.saveState s).m_currentEditStep = s.m_currentEditStep + 1 := by
    have : (EditGeometryData.saveState s).m_currentEditStep =
        (EditGeometryData.saveState s).m_history.length - 1 := rfl
    rw [this, hlen]
    rfl
  refine ⟨rfl, hlen, hcur2, ?_, rfl, ?_⟩
  · rw [hcur2]
    have htl : (List.take (s.m_currentEditStep + 1) s.m_history).length =
        s.m_currentEditStep + 1 := by
      rw [List.length_take]; omega
    show (List.take (s.m_currentEditStep + 1) s.m_history ++ [s.m_data])[
      s.m_currentEditStep + 1]? = some s.m_data
    rw [List.getElem?_append_right (by omega), htl]
    simp
  · have hle := EditGeometryData.lastIndex_le (EditGeometryData.saveState s) (by omega)
    simp only [EditGeometryData.canRedo, decide_eq_false_iff_not]
    omega

/-- Witness for C5: history `[1, 2]`, cursor 1; after `undo()` the cursor is 0
and `saveState()` leaves the history `[1, 1]`. -/
theorem EditGeometryData.saveState_after_undo_witness :
    (EditGeometryData.saveState
        ({ m_data := 1, m_history := [1, 2], m_currentEditStep := 0 } :
          EditGeometryData Nat)).m_history = [1, 1] ∧
    EditGeometryData.canRedo (EditGeometryData.saveState
        ({ m_data := 1, m_history := [1, 2], m_currentEditStep := 0 } :
          EditGeometryData Nat)) = false :=
  have h := EditGeometryData.saveState_after_undo
    ({ m_data := 2, m_history := [1, 2], m_currentEditStep := 1 } : EditGeometryData Nat)
    { m_data := 1, m_history := [1, 2], m_currentEditStep := 0 } (by decide)
  ⟨h.1, h.2.2.2.2.2⟩

/-! ## Binary form: reading back what was written -/

theorem length_putLE (w n : Nat) : (putLE w n).length = w := by
  induction w generalizing n with
  | zero => rfl
  | succ k ih => simp [putLE, ih]

theorem getLE_putLE (w n : Nat) (rest : Buffer) :
    getLE w (putLE w n ++ rest) = some (n % 256 ^ w, rest) := by
  induction w generalizing n with
  | zero => simp [putLE, getLE, Nat.mod_one]
  | succ k ih =>
    have e : putLE (k + 1) n ++ rest = (n % 256) :: (putLE k (n / 256) ++ rest) := rfl
    rw [e, getLE, ih, pow_succ', Nat.mod_mul]

theorem getLE_short (w : Nat) (bs : Buffer) (h : bs.length < w) : getLE w bs = none := by
  induction w generalizing bs with
  | zero => omega
  | succ k ih =>
    cases bs with
    | nil => rfl
    | cons b bs =>
      have hk : bs.length < k := by simp at h; omega
      simp [getLE, ih bs hk]

theorem le_roundTrips (w n : Nat) (h : n < 256 ^ w) : RoundTrips (putLE w) (getLE w) n := by
  intro rest
  rw [getLE_putLE, Nat.mod_eq_of_lt h]

theorem le_failsShort (w n : Nat) : FailsShort (putLE w) (getLE w) n := by
  intro q t ht h
  apply getLE_short
  have hl := congrArg List.length h
  rw [List.length_append, length_putLE] at hl
  have : 0 < t.length := List.length_pos.mpr ht
  omega

theorem seq_split (q t e1 e2 : Buffer) (h : q ++ t = e1 ++ e2) :
    (∃ t1, t1 ≠ [] ∧ q ++ t1 = e1) ∨ (∃ q2, q = e1 ++ q2 ∧ q2 ++ t = e2) := by
  rcases List.append_eq_append_iff.mp h with ⟨m, h1, h2⟩ | ⟨m, h1, h2⟩
  · by_cases hm : m = []
    · subst hm
      right
      exact ⟨[], by simpa using h1.symm, by simp [h2]⟩
    · left
      exact ⟨m, hm, h1.symm⟩
  · right
    exact ⟨m, h1, h2.symm⟩

theorem getAll_roundTrips {α : Type} (wr : α → Buffer) (rd : Buffer → Option (α × Buffer))
    (xs : List α) (hrt : ∀ a ∈ xs, RoundTrips wr rd a) (rest : Buffer) :
    getAll rd xs.length (putAll wr xs ++ rest) = some (xs, rest) := by
  induction xs with
  | nil => rfl
  | cons a as ih =>
    have ha := hrt a (List.mem_cons_self a as)
    have ih2 := ih (fun b hb => hrt b (List.mem_cons_of_mem a hb))
    simp only [putAll, List.length_cons, getAll, List.append_assoc, ha (putAll wr as ++ rest), ih2]

theorem getAll_failsShort {α : Type} (wr : α → Buffer) (rd : Buffer → Option (α × Buffer))
    (xs : List α) (hrt : ∀ a ∈ xs, RoundTrips wr rd a) (hfs : ∀ a ∈ xs, FailsShort wr rd a)
    (q t : Buffer) (ht : t ≠ []) (h : q ++ t = putAll wr xs) :
    getAll rd xs.length q = none := by
  induction xs generalizing q with
  | nil =>
    simp only [putAll, List.append_eq_nil] at h
    exact absurd h.2 ht
  | cons a as ih =>
    simp only [putAll] at h
    rcases seq_split q t _ _ h with ⟨t1, ht1, e⟩ | ⟨q2, rfl, e⟩
    · simp only [List.length_cons, getAll, hfs a (List.mem_cons_self a as) q t1 ht1 e]
    · have ih2 := ih (fun b hb => hrt b (List.mem_cons_of_mem a hb))
        (fun b hb => hfs b (List.mem_cons_of_mem a hb)) q2 e
      simp only [List.length_cons, getAll, hrt a (List.mem_cons_self a as) q2, ih2]

theorem counted_roundTrips {α : Type} (wr : α → Buffer) (rd : Buffer → Option (α × Buffer))
    (xs : List α) (hlen : xs.length < 2 ^ 32) (hrt : ∀ a ∈ xs, RoundTrips wr rd a) :
    RoundTrips (putCounted wr) (getCounted rd) xs := by
  intro rest
  have h4 : xs.length < 256 ^ 4 := by
    have : (256 : Nat) ^ 4 = 2 ^ 32 := by norm_num
    omega
  simp only [putCounted, getCounted, List.append_assoc, le_roundTrips 4 xs.length h4 _,
    getAll_roundTrips wr rd xs hrt rest]

theorem counted_failsShort {α : Type} (wr : α → Buffer) (rd : Buffer → Option (α × Buffer))
    (xs : List α) (hlen : xs.length < 2 ^ 32) (hrt : ∀ a ∈ xs, RoundTrips wr rd a)
    (hfs : ∀ a ∈ xs, FailsShort wr rd a) :
    FailsShort (putCounted wr) (getCounted rd) xs := by
  intro q t ht h
  have h4 : xs.length < 256 ^ 4 := by
    have : (256 : Nat) ^ 4 = 2 ^ 32 := by norm_num
    omega
  simp only [putCounted] at h
  rcases seq_split q t _ _ h with ⟨t1, ht1, e⟩ | ⟨q2, rfl, e⟩
  · simp only [getCounted, le_failsShort 4 xs.length q t1 ht1 e]
  · simp only [getCounted, le_roundTrips 4 xs.length h4 q2,
      getAll_failsShort wr rd xs hrt hfs q2 t ht e]

theorem mem_idList (s : Finset Int) (a : Int) : a ∈ idList s ↔ a ∈ s := by
  rcases s with ⟨⟨l⟩, hl⟩
  show a ∈ l.insertionSort (· ≤ ·) ↔ a ∈ l
  exact (List.perm_insertionSort (· ≤ ·) l).mem_iff

theorem length_idList (s : Finset Int) : (idList s).length = s.card := by
  rcases s with ⟨⟨l⟩, hl⟩
  show (l.insertionSort (· ≤ ·)).length = l.length
  exact (List.perm_insertionSort (· ≤ ·) l).length_eq

theorem toFinset_idList (s : Finset Int) : (idList s).toFinset = s := by
  ext a
  rw [List.mem_toFinset, mem_idList]

theorem id_roundTrips (id : Int) (h1 : -(2 : Int) ^ 63 ≤ id) (h2 : id < 2 ^ 63) :
    RoundTrips putId getId id := by
  intro rest
  have hv : (id % 2 ^ 64).toNat < 256 ^ 8 := by
    have : (256 : Nat) ^ 8 = 2 ^ 64 := by norm_num
    omega
  simp only [putId, getId, le_roundTrips 8 _ hv rest, Option.some.injEq, Prod.mk.injEq, and_true]
  split <;> omega

theorem id_failsShort (id : Int) : FailsShort putId getId id := by
  intro q t ht h
  simp only [getId, le_failsShort 8 _ q t ht h]

theorem point_roundTrips (p : SimplePoint) (hx : p.x < 2 ^ 32) (hy : p.y < 2 ^ 32) :
    RoundTrips putPoint getPoint p := by
  intro rest
  have h4 : (256 : Nat) ^ 4 = 2 ^ 32 := by norm_num
  simp only [putPoint, getPoint, List.append_assoc, le_roundTrips 4 p.x (by omega) _,
    le_roundTrips 4 p.y (by omega) rest]

theorem point_failsShort (p : SimplePoint) (hx : p.x < 2 ^ 32) :
    FailsShort putPoint getPoint p := by
  intro q t ht h
  have h4 : (256 : Nat) ^ 4 = 2 ^ 32 := by norm_num
  simp only [putPoint] at h
  rcases seq_split q t _ _ h with ⟨t1, ht1, e⟩ | ⟨q2, rfl, e⟩
  · simp only [getPoint, le_failsShort 4 p.x q t1 ht1 e]
  · simp only [getPoint, le_roundTrips 4 p.x (by omega) q2, le_failsShort 4 p.y q2 t ht e]

theorem VectorTileItem.fields_roundTrip (a : VectorTileItem) (ha : a.fits) :
    RoundTrips (putCounted putId) (getCounted getId) (idList a.m_ids) ∧
    RoundTrips (putCounted putPoint) (getCounted getPoint) a.m_points ∧
    RoundTrips (putCounted (putLE 2)) (getCounted (getLE 2)) a.m_indices ∧
    RoundTrips (putCounted (putCounted (putLE 2))) (getCounted (getCounted (getLE 2)))
      a.m_borderIndices ∧
    RoundTrips (putCounted putPoint) (getCounted getPoint) a.m_centroids := by
  obtain ⟨h1, h2, h3, h4, h5, h6, h7, h8, h9, h10⟩ := ha
  have h16 : (256 : Nat) ^ 2 = 2 ^ 16 := by norm_num
  refine ⟨?_, ?_, ?_, ?_, ?_⟩
  · apply counted_roundTrips
    · rw [length_idList]; exact h1
    · intro id hid
      rw [mem_idList] at hid
      exact id_roundTrips id (h2 id hid).1 (h2 id hid).2
  · exact counted_roundTrips _ _ _ h3 (fun p hp => point_roundTrips p (h4 p hp).1 (h4 p hp).2)
  · exact counted_roundTrips _ _ _ h5 (fun i hi => le_roundTrips 2 i (by have := h6 i hi; omega))
  · exact counted_roundTrips _ _ _ h7 (fun r hr => counted_roundTrips _ _ _ (h8 r hr).1
      (fun i hi => le_roundTrips 2 i (by have := (h8 r hr).2 i hi; omega)))
  · exact counted_roundTrips _ _ _ h9 (fun p hp => point_roundTrips p (h10 p hp).1 (h10 p hp).2)

theorem VectorTileItem.fields_failShort (a : VectorTileItem) (ha : a.fits) :
    FailsShort (putCounted putId) (getCounted getId) (idList a.m_ids) ∧
    FailsShort (putCounted putPoint) (getCounted getPoint) a.m_points ∧
    FailsShort (putCounted (putLE 2)) (getCounted (getLE 2)) a.m_indices ∧
    FailsShort (putCounted (putCounted (putLE 2))) (getCounted (getCounted (getLE 2)))
      a.m_borderIndices ∧
    FailsShort (putCounted putPoint) (getCounted getPoint) a.m_centroids := by
  obtain ⟨h1, h2, h3, h4, h5, h6, h7, h8, h9, h10⟩ := ha
  have h16 : (256 : Nat) ^ 2 = 2 ^ 16 := by norm_num
  refine ⟨?_, ?_, ?_, ?_, ?_⟩
  · apply counted_failsShort
    · rw [length_idList]; exact h1
    · intro id hid
      rw [mem_idList] at hid
      exact id_roundTrips id (h2 id hid).1 (h2 id hid).2
    · exact fun id _ => id_failsShort id
  · exact counted_failsShort _ _ _ h3 (fun p hp => point_roundTrips p (h4 p hp).1 (h4 p hp).2)
      (fun p hp => point_failsShort p (h4 p hp).1)
  · exact counted_failsShort _ _ _ h5
      (fun i hi => le_roundTrips 2 i (by have := h6 i hi; omega)) (fun i _ => le_failsShort 2 i)
  · exact counted_failsShort _ _ _ h7
      (fun r hr => counted_roundTrips _ _ _ (h8 r hr).1
        (fun i hi => le_roundTrips 2 i (by have := (h8 r hr).2 i hi; omega)))
      (fun r hr => counted_failsShort _ _ _ (h8 r hr).1
        (fun i hi => le_roundTrips 2 i (by have := (h8 r hr).2 i hi; omega))
        (fun i _ => le_failsShort 2 i))
  · exact counted_failsShort _ _ _ h9 (fun p hp => point_roundTrips p (h10 p hp).1 (h10 p hp).2)
      (fun p hp => point_failsShort p (h10 p hp).1)

theorem itemFlags_decode (a : VectorTileItem) :
    decide (itemFlags a % 2 = 1) = a.m_valid ∧ decide (itemFlags a / 2 % 2 = 1) = a.m_2d := by
  cases a with
  | mk p i b c ids v d => cases v <;> cases d <;> simp [itemFlags]

theorem VectorTileItem.save_load_roundTrips (a : VectorTileItem) (ha : a.fits) :
    RoundTrips VectorTileItem.save VectorTileItem.load a := by
  intro rest
  obtain ⟨r1, r2, r3, r4, r5⟩ := VectorTileItem.fields_roundTrip a ha
  have hf : itemFlags a < 256 ^ 1 := by
    cases a with
    | mk p i b c ids v d => cases v <;> cases d <;> simp [itemFlags]
  simp only [VectorTileItem.save, VectorTileItem.load, List.append_assoc, r1 _, r2 _, r3 _, r4 _,
    r5 _, le_roundTrips 1 _ hf rest, toFinset_idList, (itemFlags_decode a).1,
    (itemFlags_decode a).2]

theorem VectorTileItem.load_failsShort (a : VectorTileItem) (ha : a.fits) :
    FailsShort VectorTileItem.save VectorTileItem.load a := by
  intro q t ht h
  obtain ⟨r1, r2, r3, r4, r5⟩ := VectorTileItem.fields_roundTrip a ha
  obtain ⟨f1, f2, f3, f4, f5⟩ := VectorTileItem.fields_failShort a ha
  unfold VectorTileItem.save at h
  unfold VectorTileItem.load
  rcases seq_split q t _ _ h with ⟨t1, ht1, e⟩ | ⟨q1, hq, h1⟩
  · rw [f1 q t1 ht1 e]
  rw [hq, r1 q1]
  rcases seq_split q1 t _ _ h1 with ⟨t1, ht1, e⟩ | ⟨q2, hq2, h2⟩
  · simp only [f2 q1 t1 ht1 e]
  rw [hq2]
  simp only [r2 q2]
  rcases seq_split q2 t _ _ h2 with ⟨t1, ht1, e⟩ | ⟨q3, hq3, h3⟩
  · simp only [f3 q2 t1 ht1 e]
  rw [hq3]
  simp only [r3 q3]
  rcases seq_split q3 t _ _ h3 with ⟨t1, ht1, e⟩ | ⟨q4, hq4, h4⟩
  · simp only [f4 q3 t1 ht1 e]
  rw [hq4]
  simp only [r4 q4]
  rcases seq_split q4 t _ _ h4 with ⟨t1, ht1, e⟩ | ⟨q5, hq5, h5⟩
  · simp only [f5 q4 t1 ht1 e]
  rw [hq5]
  simp only [r5 q5, le_failsShort 1 _ q5 t ht h5]

theorem VectorTile.save_roundTrips (t : VectorTile) (ht : t.fits) :
    RoundTrips (putCounted VectorTileItem.save) (getCounted VectorTileItem.load) t.m_items :=
  counted_roundTrips _ _ _ ht.1 (fun a ha => VectorTileItem.save_load_roundTrips a (ht.2 a ha))

theorem VectorTile.save_failsShort (t : VectorTile) (ht : t.fits) :
    FailsShort (putCounted VectorTileItem.save) (getCounted VectorTileItem.load) t.m_items :=
  counted_failsShort _ _ _ ht.1 (fun a ha => VectorTileItem.save_load_roundTrips a (ht.2 a ha))
    (fun a ha => VectorTileItem.load_failsShort a (ht.2 a ha))

/-- C7: for every tile `t` whose data fit the binary form, loading the buffer
produced by `t.save()` into any tile succeeds and leaves in the target exactly
the items of `t`, in the same order: each item has the same id set, points,
indices, border indices and centroids (and the same two flags). -/
theorem VectorTile.load_save (t target : VectorTile) (ht : t.fits) :
    VectorTile.load target (VectorTile.save t) = (true, { m_items := t.m_items, m_valid := true }) := by
  have h := VectorTile.save_roundTrips t ht []
  rw [List.append_nil] at h
  simp only [VectorTile.load, VectorTile.save, h]

/-- C10: for every tile `t` whose data fit the binary form and every buffer
that is a proper prefix of `t.save()`, `load` returns false and the target tile
keeps the items and the valid flag it had before the call. -/
theorem VectorTile.load_truncated (t target : VectorTile) (ht : t.fits) (buf : Buffer)
    (hpre : buf <+: VectorTile.save t) (hne : buf ≠ VectorTile.save t) :
    VectorTile.load target buf = (false, target) := by
  obtain ⟨rest, hrest⟩ := hpre
  have hr : rest ≠ [] := by
    intro h0
    apply hne
    rw [← hrest, h0, List.append_nil]
  have h := VectorTile.save_failsShort t ht buf rest hr hrest
  simp only [VectorTile.load, h]

/-- Witness for C7: a tile with one item (ids 7 and -2, one point, one index,
one ring, no centroid) is read back from the 57 bytes written for it. -/
theorem VectorTile.load_save_witness :
    VectorTile.fits
      { m_items :=
          [{ m_points := [⟨1, 2⟩], m_indices := [0], m_borderIndices := [[0]],
             m_centroids := [], m_ids := {7, -2}, m_valid := true, m_2d := true }],
        m_valid := true } ∧
    VectorTile.load { m_items := [], m_valid := false }
      (VectorTile.save
        { m_items :=
            [{ m_points := [⟨1, 2⟩], m_indices := [0], m_borderIndices := [[0]],
               m_centroids := [], m_ids := {7, -2}, m_valid := true, m_2d := true }],
          m_valid := true }) =
      (true,
        { m_items :=
            [{ m_points := [⟨1, 2⟩], m_indices := [0], m_borderIndices := [[0]],
               m_centroids := [], m_ids := {7, -2}, m_valid := true, m_2d := true }],
          m_valid := true }) :=
  ⟨by decide, VectorTile.load_save _ _ (by decide)⟩

/-- Witness for C10: of the 57 bytes written for a tile with one item (ids 7
and -2, one point, one index, one ring) only the first 24 are given, the item
count and the id array; `load` rejects them and the target tile keeps the item
it held. -/
theorem VectorTile.load_truncated_witness :
    VectorTile.load
      { m_items :=
          [{ m_points := [], m_indices := [], m_borderIndices := [], m_centroids := [],
             m_ids := {3}, m_valid := true, m_2d := false }],
        m_valid := true }
      [1, 0, 0, 0, 2, 0, 0, 0, 254, 255, 255, 255, 255, 255, 255, 255, 7, 0, 0, 0, 0, 0, 0, 0] =
      (false,
        { m_items :=
            [{ m_points := [], m_indices := [], m_borderIndices := [], m_centroids := [],
               m_ids := {3}, m_valid := true, m_2d := false }],
          m_valid := true }) :=
  VectorTile.load_truncated
    { m_items :=
        [{ m_points := [⟨1, 2⟩], m_indices := [0], m_borderIndices := [[0]],
           m_centroids := [], m_ids := {7, -2}, m_valid := true, m_2d := true }],
      m_valid := true }
    _ (by decide) _ (by decide) (by decide)

/-! ## Adding and removing items -/

theorem mergeItem_hit (isEqual : Nat → Nat → Bool) (item e : VectorTileItem)
    (pre post : List VectorTileItem)
    (hpre : ∀ x ∈ pre, VectorTileItem.eq isEqual x item = false)
    (he : VectorTileItem.eq isEqual e item = true) :
    mergeItem isEqual item (pre ++ e :: post) =
      pre ++ { e with m_ids := e.m_ids ∪ item.m_ids } :: post := by
  induction pre with
  | nil => simp [mergeItem, he, VectorTileItem.loadIds]
  | cons x xs ih =>
    have hx : VectorTileItem.eq isEqual x item = false := hpre x (List.mem_cons_self x xs)
    have ih2 := ih (fun y hy => hpre y (List.mem_cons_of_mem x hy))
    simp [mergeItem, hx, ih2]

theorem mergeItem_miss (isEqual : Nat → Nat → Bool) (item : VectorTileItem)
    (items : List VectorTileItem)
    (h : ∀ x ∈ items, VectorTileItem.eq isEqual x item = false) :
    mergeItem isEqual item items = items ++ [item] := by
  induction items with
  | nil => rfl
  | cons x xs ih =>
    have hx : VectorTileItem.eq isEqual x item = false := h x (List.mem_cons_self x xs)
    have ih2 := ih (fun y hy => h y (List.mem_cons_of_mem x hy))
    simp [mergeItem, hx, ih2]

/-- C8: `add(item, checkDuplicates = true)`.  When an existing item is equal by
points to `item`, the first such item gets the union of both id sets, every
other item stays as it is and the number of items does not change; when there
is none, `item` is appended at the end.  In particular, adding to a tile without
items an item `a` with ids `{1}` and then an item `b` with the same points
(points that `==` holds equal to themselves) and ids `{2}` leaves the single
item `a` with ids `{1, 2}`. -/
theorem VectorTile.add_checkDuplicates (isEqual : Nat → Nat → Bool) (t : VectorTile)
    (item : VectorTileItem) :
    (∀ pre e post, t.m_items = pre ++ e :: post →
      (∀ x ∈ pre, VectorTileItem.eq isEqual x item = false) →
      VectorTileItem.eq isEqual e item = true →
      (VectorTile.add isEqual t item true).m_items =
          pre ++ { e with m_ids := e.m_ids ∪ item.m_ids } :: post ∧
        (VectorTile.add isEqual t item true).m_items.length = t.m_items.length) ∧
    ((∀ x ∈ t.m_items, VectorTileItem.eq isEqual x item = false) →
      (VectorTile.add isEqual t item true).m_items = t.m_items ++ [item]) ∧
    (∀ a b : VectorTileItem, t.m_items = [] → a.m_points = b.m_points →
      pointsEq isEqual a.m_points a.m_points = true → a.m_ids = {1} → b.m_ids = {2} →
      (VectorTile.add isEqual (VectorTile.add isEqual t a true) b true).m_items =
        [{ a with m_ids := {1, 2} }]) := by
  refine ⟨?_, ?_, ?_⟩
  · intro pre e post hitems hpre he
    have h := mergeItem_hit isEqual item e pre post hpre he
    simp only [VectorTile.add, if_true, hitems, h, List.length_append, List.length_cons,
      and_self]
  · intro h
    simp only [VectorTile.add, if_true, mergeItem_miss isEqual item t.m_items h]
  · intro a b ht hp hrefl ha hb
    have hab : VectorTileItem.eq isEqual a b = true := by
      unfold VectorTileItem.eq
      rw [← hp]
      exact hrefl
    have hu : ({1} : Finset Int) ∪ {2} = {1, 2} := by decide
    simp only [VectorTile.add, if_true, ht, mergeItem, hab, VectorTileItem.loadIds, ha, hb, hu]

/-- Witness for C8: exact comparison as `isEqual`, one point `(0, 0)`. -/
theorem VectorTile.add_checkDuplicates_witness :
    (VectorTile.add (fun u v => u == v)
      (VectorTile.add (fun u v => u == v) { m_items := [], m_valid := false }
        { m_points := [⟨0, 0⟩], m_indices := [], m_borderIndices := [], m_centroids := [],
          m_ids := {1}, m_valid := true, m_2d := true } true)
      { m_points := [⟨0, 0⟩], m_indices := [], m_borderIndices := [], m_centroids := [],
        m_ids := {2}, m_valid := true, m_2d := true } true).m_items =
    [{ m_points := [⟨0, 0⟩], m_indices := [], m_borderIndices := [], m_centroids := [],
       m_ids := {1, 2}, m_valid := true, m_2d := true }] :=
  (VectorTile.add_checkDuplicates (fun u v => u == v) { m_items := [], m_valid := false }
    { m_points := [⟨0, 0⟩], m_indices := [], m_borderIndices := [], m_centroids := [],
      m_ids := {1}, m_valid := true, m_2d := true }).2.2
    { m_points := [⟨0, 0⟩], m_indices := [], m_borderIndices := [], m_centroids := [],
      m_ids := {1}, m_valid := true, m_2d := true }
    { m_points := [⟨0, 0⟩], m_indices := [], m_borderIndices := [], m_centroids := [],
      m_ids := {2}, m_valid := true, m_2d := true } rfl rfl (by decide) rfl rfl

/-- C9, refuted as stated: a tile whose only item has no ids.  `remove(5)`
drops that item although it never held the id 5. -/
theorem VectorTile.remove_drops_item_without_ids :
    (5 : Int) ∉ VectorTileItem.m_ids
      { m_points := [⟨0, 0⟩], m_indices := [], m_borderIndices := [], m_centroids := [],
        m_ids := ∅, m_valid := true, m_2d := true } ∧
    (VectorTile.remove
      { m_items :=
          [{ m_points := [⟨0, 0⟩], m_indices := [], m_borderIndices := [], m_centroids := [],
             m_ids := ∅, m_valid := true, m_2d := true }],
        m_valid := true } 5).m_items = [] := by
  decide

/-- C9, amended: after `remove(id)` no remaining item's id set contains `id`,
no remaining item has an empty id set, the items that never held `id` and have
at least one id are kept unchanged and in their original relative order, and
`empty()` is true exactly when no item remains. -/
theorem VectorTile.remove_spec (t : VectorTile) (id : Int) :
    (∀ e ∈ (VectorTile.remove t id).m_items, id ∉ e.m_ids ∧ e.m_ids ≠ ∅) ∧
    List.Sublist (t.m_items.filter (fun e => decide (id ∉ e.m_ids ∧ e.m_ids ≠ ∅)))
      (VectorTile.remove t id).m_items ∧
    (VectorTile.empty (VectorTile.remove t id) = true ↔
      (VectorTile.remove t id).m_items = []) := by
  refine ⟨?_, ?_, ?_⟩
  · intro e he
    simp only [VectorTile.remove, List.mem_filter, List.mem_map, decide_eq_true_eq] at he
    obtain ⟨⟨x, _, hx⟩, hne⟩ := he
    refine ⟨?_, hne⟩
    rw [← hx]
    exact Finset.not_mem_erase id x.m_ids
  · show List.Sublist _ ((t.m_items.map (fun e => e.removeId id)).filter
      (fun e => decide (e.m_ids ≠ ∅)))
    induction t.m_items with
    | nil => exact List.Sublist.slnil
    | cons x xs ih =>
      by_cases hx : id ∉ x.m_ids ∧ x.m_ids ≠ ∅
      · have hsame : x.removeId id = x := by
          cases x
          simp only [VectorTileItem.removeId]
          rw [Finset.erase_eq_of_not_mem hx.1]
        have hkeep : decide ((x.removeId id).m_ids ≠ ∅) = true := by
          rw [hsame]; exact decide_eq_true hx.2
        rw [List.filter_cons, if_pos (decide_eq_true hx), List.map_cons, List.filter_cons,
          if_pos hkeep, hsame]
        exact List.Sublist.cons₂ x ih
      · have hskip : ¬ decide (id ∉ x.m_ids ∧ x.m_ids ≠ ∅) = true := by simpa using hx
        rw [List.filter_cons, if_neg hskip, List.map_cons, List.filter_cons]
        by_cases hk : decide ((x.removeId id).m_ids ≠ ∅) = true
        · rw [if_pos hk]
          exact List.Sublist.cons _ ih
        · rw [if_neg hk]
          exact ih
  · simp [VectorTile.empty]

/-! ## Equality of tile items -/

theorem pointsEq_iff (isEqual : Nat → Nat → Bool) (ps qs : List SimplePoint) :
    pointsEq isEqual ps qs = true ↔
      ps.length = qs.length ∧
      ∀ (i : Nat) (p q : SimplePoint), ps[i]? = some p → qs[i]? = some q →
        SimplePoint.eq isEqual p q = true := by
  induction ps generalizing qs with
  | nil =>
    cases qs with
    | nil => simp [pointsEq]
    | cons q qs => simp [pointsEq]
  | cons p ps ih =>
    cases qs with
    | nil => simp [pointsEq]
    | cons q qs =>
      simp only [pointsEq, Bool.and_eq_true, ih qs, List.length_cons, Nat.add_right_cancel_iff]
      constructor
      · rintro ⟨hpq, hlen, hrest⟩
        refine ⟨hlen, ?_⟩
        intro i a b ha hb
        cases i with
        | zero =>
          simp only [List.getElem?_cons_zero, Option.some.injEq] at ha hb
          rw [← ha, ← hb]
          exact hpq
        | succ k =>
          simp only [List.getElem?_cons_succ] at ha hb
          exact hrest k a b ha hb
      · rintro ⟨hlen, hall⟩
        refine ⟨hall 0 p q (by simp) (by simp), hlen, ?_⟩
        intro i a b ha hb
        exact hall (i + 1) a b (by simpa using ha) (by simpa using hb)

/-- C11: `a == b` for tile items holds exactly when the two point sequences
have the same length and the points at every position are equal by
`SimplePoint`'s `==`; the result is the same for any two items that have these
point sequences, whatever their ids, indices, border indices, centroids and
valid and 2D flags are. -/
theorem VectorTileItem.eq_iff_points (isEqual : Nat → Nat → Bool) (a b : VectorTileItem) :
    (VectorTileItem.eq isEqual a b = true ↔
      a.m_points.length = b.m_points.length ∧
      ∀ (i : Nat) (p q : SimplePoint), a.m_points[i]? = some p → b.m_points[i]? = some q →
        SimplePoint.eq isEqual p q = true) ∧
    (∀ a2 b2 : VectorTileItem, a2.m_points = a.m_points → b2.m_points = b.m_points →
      VectorTileItem.eq isEqual a2 b2 = VectorTileItem.eq isEqual a b) := by
  refine ⟨pointsEq_iff isEqual a.m_points b.m_points, ?_⟩
  intro a2 b2 ha hb
  simp only [VectorTileItem.eq, ha, hb]

/-! ## Type tags of the edit geometries -/

/-- C20: each edit class reports its own tag (`POINT` for `EditPoint`, `LINE`
for `EditLine`, `POLYGON` for `EditPolygon`, `MULTIPOINT` for `EditMultiPoint`,
`MULTILINE` for `EditMultiLine`, `MULTIPOLYGON` for `EditMultiPolygon`), two
different classes report different tags with different enumerator values, and
the class is recovered from the tag. -/
theorem EditClass.type_distinct :
    EditClass.type .EditPoint = .POINT ∧ EditClass.type .EditLine = .LINE ∧
    EditClass.type .EditPolygon = .POLYGON ∧ EditClass.type .EditMultiPoint = .MULTIPOINT ∧
    EditClass.type .EditMultiLine = .MULTILINE ∧
    EditClass.type .EditMultiPolygon = .MULTIPOLYGON ∧
    (∀ c d : EditClass, c ≠ d → c.type ≠ d.type ∧ c.type.value ≠ d.type.value) ∧
    (∀ c : EditClass, c.type.variant = c) := by
  refine ⟨rfl, rfl, rfl, rfl, rfl, rfl, ?_, ?_⟩
  · intro c d h
    cases c <;> cases d <;> first | exact absurd rfl h | decide
  · intro c
    cases c <;> rfl

/-! ## Undo after adding a vertex to a polygon -/

/-- C13: on an `EditPolygon` set up by `init(x1, y1, x2, y2)`, a successful
`addPoint(x, y)` with `log = true` followed by `undo()` succeeds and leaves as
ring set exactly the one present right after `init`, wherever the vertex was
placed. -/
theorem EditPolygon.undo_after_addPoint {α : Type}
    (seed : α → α → α → α → Polygon α)
    (place : Polygon α → ngsPointId → Int → α → α → Option (Polygon α × ngsPointId × Int))
    (x1 y1 x2 y2 x y : α) (e1 : EditPolygon α)
    (h : EditPolygon.addPoint place (EditPolygon.init seed x1 y1 x2 y2) x y true = (true, e1)) :
    ∃ e2, EditPolygon.undo e1 = some (true, e2) ∧
      e2.m_data.m_data = (EditPolygon.init seed x1 y1 x2 y2).m_data.m_data ∧
      e2.m_data.m_data = seed x1 y1 x2 y2 := by
  unfold EditPolygon.addPoint at h
  cases hp : place (EditPolygon.init seed x1 y1 x2 y2).m_data.m_data
      (EditPolygon.init seed x1 y1 x2 y2).m_selectedPoint
      (EditPolygon.init seed x1 y1 x2 y2).m_selectedRing x y with
  | none => simp [hp] at h
  | some r =>
    obtain ⟨rings, pt, ring⟩ := r
    simp only [hp, if_true, Prod.mk.injEq, true_and] at h
    subst h
    refine ⟨{ m_data := { m_data := seed x1 y1 x2 y2,
                          m_history := [seed x1 y1 x2 y2, rings],
                          m_currentEditStep := 0 },
              m_selectedRing := ring, m_selectedPoint := pt, m_isDragging := false },
      ?_, rfl, rfl⟩
    simp [EditPolygon.undo, EditPolygon.init, EditPolygon.create, EditGeometryData.saveState,
      EditGeometryData.setData, EditGeometryData.construct, EditGeometryData.undo]

/-- Witness for C13: `init(0, 0, 10, 10)` seeding the ring of the four corners,
`addPoint(5, 15)` appending the vertex to every ring, then `undo()`. -/
theorem EditPolygon.undo_after_addPoint_witness :
    ∃ e2 : EditPolygon Int,
      EditPolygon.undo
        ({ m_data :=
             { m_data := [[⟨0, 0⟩, ⟨10, 0⟩, ⟨10, 10⟩, ⟨0, 10⟩, ⟨5, 15⟩]],
               m_history := [[[⟨0, 0⟩, ⟨10, 0⟩, ⟨10, 10⟩, ⟨0, 10⟩]],
                             [[⟨0, 0⟩, ⟨10, 0⟩, ⟨10, 10⟩, ⟨0, 10⟩, ⟨5, 15⟩]]],
               m_currentEditStep := 1 },
           m_selectedRing := -1, m_selectedPoint := ⟨-1, false⟩, m_isDragging := false } :
          EditPolygon Int) =
        some (true, e2) ∧
      e2.m_data.m_data = [[⟨0, 0⟩, ⟨10, 0⟩, ⟨10, 10⟩, ⟨0, 10⟩]] :=
  match EditPolygon.undo_after_addPoint
    (fun (x1 y1 x2 y2 : Int) =>
      ([[OGRRawPoint.mk x1 y1, OGRRawPoint.mk x2 y1, OGRRawPoint.mk x2 y2,
         OGRRawPoint.mk x1 y2]] : Polygon Int))
    (fun (rings : Polygon Int) (pt : ngsPointId) (ring : Int) (x y : Int) =>
      some (rings.map (fun r => r ++ [OGRRawPoint.mk x y]), pt, ring))
    0 0 10 10 5 15
    { m_data :=
        { m_data := [[⟨0, 0⟩, ⟨10, 0⟩, ⟨10, 10⟩, ⟨0, 10⟩, ⟨5, 15⟩]],
          m_history := [[[⟨0, 0⟩, ⟨10, 0⟩, ⟨10, 10⟩, ⟨0, 10⟩]],
                        [[⟨0, 0⟩, ⟨10, 0⟩, ⟨10, 10⟩, ⟨0, 10⟩, ⟨5, 15⟩]]],
          m_currentEditStep := 1 },
      m_selectedRing := -1, m_selectedPoint := ⟨-1, false⟩, m_isDragging := false }
    (by decide) with
  | ⟨e2, h1, _, h3⟩ => ⟨e2, h1, h3⟩

/-! ## Merging envelopes -/

/-- C19: after `a.merge(b)` the envelope `a` is the union box of the two: each
min bound is the smaller and each max bound the larger of the two operands; it
contains the previous `a` and it contains `b`, and it lies inside every
envelope that contains both. -/
theorem Envelope.merge_union {α : Type} [LinearOrder α] (a b : Envelope α) :
    (a.merge b).m_minX = min a.m_minX b.m_minX ∧
    (a.merge b).m_minY = min a.m_minY b.m_minY ∧
    (a.merge b).m_maxX = max a.m_maxX b.m_maxX ∧
    (a.merge b).m_maxY = max a.m_maxY b.m_maxY ∧
    (a.merge b).contains a = true ∧ (a.merge b).contains b = true ∧
    (∀ e : Envelope α, e.contains a = true → e.contains b = true →
      e.contains (a.merge b) = true) := by
  refine ⟨rfl, rfl, rfl, rfl, ?_, ?_, ?_⟩
  · simp [Envelope.contains, Envelope.merge]
  · simp [Envelope.contains, Envelope.merge]
  · intro e ha hb
    simp only [Envelope.contains, Envelope.merge, Bool.and_eq_true, decide_eq_true_eq] at ha hb ⊢
    exact ⟨⟨⟨le_min ha.1.1.1 hb.1.1.1, le_min ha.1.1.2 hb.1.1.2⟩, max_le ha.1.2 hb.1.2⟩,
      max_le ha.2 hb.2⟩

/-! ## Track point counters -/

theorem TracksTable.addPoints_length (t : TracksTable) (calls : List (Bool × Bool)) :
    (TracksTable.addPoints t calls).length = calls.length := by
  induction calls generalizing t with
  | nil => rfl
  | cons c rest ih =>
    obtain ⟨nt, ns⟩ := c
    simp [TracksTable.addPoints, ih]

theorem incInt32_of_lt (x : Int) (h1 : INT32_MIN ≤ x) (h2 : x < INT32_MAX) :
    incInt32 x = x + 1 := by
  simp only [INT32_MIN, INT32_MAX] at h1 h2
  simp only [incInt32]
  norm_num
  rw [Int.emod_eq_of_lt (by omega) (by omega)]
  omega

theorem incInt32_zero : incInt32 0 = 1 := by decide

theorem incInt32_ge (x : Int) : INT32_MIN ≤ incInt32 x := by
  simp only [INT32_MIN, incInt32]
  norm_num
  exact Int.emod_nonneg _ (by norm_num)

/-- C23, the case where it fails: a track table opened on a table whose greatest
`track_fid` is `INT32_MAX`; the next `addPoint` with `newTrack` does not write
the old track id plus 1 but `INT32_MIN`.  Likewise a point added to a segment
whose last point id is `INT32_MAX` gets `INT32_MIN` and not the previous point
id plus 1. -/
theorem TracksTable.addPoint_wraps_at_int_max :
    (TracksTable.create (some 2147483647)).inRange ∧
    (TracksTable.addPoint (TracksTable.create (some 2147483647)) true false).1.track_fid =
      -2147483648 ∧
    (TracksTable.addPoint (TracksTable.create (some 2147483647)) true false).1.track_fid ≠
      (TracksTable.create (some 2147483647)).m_lastTrackId + 1 ∧
    (TracksTable.addPoint ⟨1, 1, 2147483647⟩ false false).1.track_seg_point_id =
      -2147483648 := by
  refine ⟨?_, ?_, ?_, ?_⟩
  · simp only [TracksTable.inRange, TracksTable.create, INT32_MIN, INT32_MAX]
    decide
  · decide
  · decide
  · decide

/-- C23, amended: as long as the counter a call increments is below the greatest
`int`, one call of `addPoint` moves the counters as follows.  With `newTrack`
the track id written is the old one plus 1, otherwise the old one; the segment
id written is 1 with `newTrack` and `newSegment`, 0 with `newTrack` alone, the
old one plus 1 with `newSegment` alone and the old one otherwise; the point id
written is 1 whenever `newTrack` or `newSegment` is set and otherwise the old
point id plus 1; the counters after the call are the ids written.  Hence in any
sequence of calls, from any starting counters, each call after the first writes
point id 1 when one of its flags is set and otherwise, the point id written by
the call before it being below the greatest `int`, one more than that id. -/
theorem TracksTable.addPoint_counters (t : TracksTable) (newTrack newSegment : Bool)
    (calls : List (Bool × Bool)) (ht : t.inRange)
    (h1 : newTrack = true → t.m_lastTrackId < INT32_MAX)
    (h2 : newTrack = false → newSegment = true → t.m_lastSegmentId < INT32_MAX)
    (h3 : newTrack = false → newSegment = false → t.m_lastSegmentPtId < INT32_MAX) :
    ((TracksTable.addPoint t newTrack newSegment).1.track_fid =
        if newTrack then t.m_lastTrackId + 1 else t.m_lastTrackId) ∧
    ((TracksTable.addPoint t newTrack newSegment).1.track_seg_id =
        if newTrack then (if newSegment then 1 else 0)
        else if newSegment then t.m_lastSegmentId + 1 else t.m_lastSegmentId) ∧
    ((TracksTable.addPoint t newTrack newSegment).1.track_seg_point_id =
        if newTrack || newSegment then 1 else t.m_lastSegmentPtId + 1) ∧
    ((TracksTable.addPoint t newTrack newSegment).2 =
        { m_lastTrackId := (TracksTable.addPoint t newTrack newSegment).1.track_fid,
          m_lastSegmentId := (TracksTable.addPoint t newTrack newSegment).1.track_seg_id,
          m_lastSegmentPtId :=
            (TracksTable.addPoint t newTrack newSegment).1.track_seg_point_id }) ∧
    (∀ (i : Nat) (w0 w1 : TrackPointIds) (f : Bool × Bool),
      (TracksTable.addPoints t calls)[i]? = some w0 →
      (TracksTable.addPoints t calls)[i + 1]? = some w1 →
      calls[i + 1]? = some f →
      ((f.1 || f.2) = false → w0.track_seg_point_id < INT32_MAX) →
      w1.track_seg_point_id =
        if f.1 || f.2 then 1 else w0.track_seg_point_id + 1) := by
  have ht1 := ht.1.1
  have ht2 := ht.2.1.1
  have ht3 := ht.2.2.1
  refine ⟨?_, ?_, ?_, ?_, ?_⟩
  · cases newTrack <;> cases newSegment
    · simp [TracksTable.addPoint]
    · simp [TracksTable.addPoint]
    · simp [TracksTable.addPoint, incInt32_of_lt _ ht1 (h1 rfl)]
    · simp [TracksTable.addPoint, incInt32_of_lt _ ht1 (h1 rfl)]
  · cases newTrack <;> cases newSegment
    · simp [TracksTable.addPoint]
    · simp [TracksTable.addPoint, incInt32_of_lt _ ht2 (h2 rfl rfl)]
    · simp [TracksTable.addPoint]
    · simp [TracksTable.addPoint, incInt32_zero]
  · cases newTrack <;> cases newSegment
    · simp [TracksTable.addPoint, incInt32_of_lt _ ht3 (h3 rfl rfl)]
    · simp [TracksTable.addPoint, incInt32_zero]
    · simp [TracksTable.addPoint, incInt32_zero]
    · simp [TracksTable.addPoint, incInt32_zero]
  · cases newTrack <;> cases newSegment <;> simp [TracksTable.addPoint]
  · clear ht1 ht2 ht3 h1 h2 h3 ht
    induction calls generalizing t with
    | nil => intro i w0 w1 f h0; simp [TracksTable.addPoints] at h0
    | cons c rest ih =>
      obtain ⟨nt, ns⟩ := c
      intro i w0 w1 f h0 h1 hf hlt
      cases i with
      | succ k =>
        simp only [TracksTable.addPoints, List.getElem?_cons_succ] at h0 h1 hf
        exact ih _ k w0 w1 f h0 h1 hf hlt
      | zero =>
        cases rest with
        | nil => simp at hf
        | cons c2 rest2 =>
          obtain ⟨nt2, ns2⟩ := c2
          simp only [TracksTable.addPoints, List.getElem?_cons_zero, List.getElem?_cons_succ,
            Option.some.injEq, Nat.zero_add] at h0 h1 hf
          subst h0 h1 hf
          have hge : INT32_MIN ≤ (TracksTable.addPoint t nt ns).1.track_seg_point_id := by
            simp only [TracksTable.addPoint]
            exact incInt32_ge _
          cases nt2 <;> cases ns2
          · exact incInt32_of_lt _ hge (hlt rfl)
          · simp [TracksTable.addPoint, incInt32_zero]
          · simp [TracksTable.addPoint, incInt32_zero]
          · simp [TracksTable.addPoint, incInt32_zero]

/-- Witness for C23 (amended): counters 5, 2, 7 and a call with `newSegment`
alone, which writes track id 5, segment id 3 and point id 1; in the sequence of
a call with `newTrack` followed by a call without flags the second call writes
point id 2, one more than the first. -/
theorem TracksTable.addPoint_counters_witness :
    TracksTable.inRange ⟨5, 2, 7⟩ ∧
    (TracksTable.addPoint ⟨5, 2, 7⟩ false true).1.track_fid = 5 ∧
    (TracksTable.addPoint ⟨5, 2, 7⟩ false true).1.track_seg_id = 3 ∧
    (TracksTable.addPoint ⟨5, 2, 7⟩ false true).1.track_seg_point_id = 1 ∧
    TracksTable.addPoints ⟨5, 2, 7⟩ [(true, false), (false, false)] =
      [⟨6, 0, 1⟩, ⟨6, 0, 2⟩] ∧
    (⟨6, 0, 2⟩ : TrackPointIds).track_seg_point_id =
      (⟨6, 0, 1⟩ : TrackPointIds).track_seg_point_id + 1 :=
  have hin : TracksTable.inRange ⟨5, 2, 7⟩ := by
    simp only [TracksTable.inRange, INT32_MIN, INT32_MAX]
    decide
  have h := TracksTable.addPoint_counters ⟨5, 2, 7⟩ false true
    [(true, false), (false, false)] hin (by decide) (by decide) (by decide)
  ⟨hin, h.1, h.2.1, h.2.2.1, by decide,
    h.2.2.2.2 0 ⟨6, 0, 1⟩ ⟨6, 0, 2⟩ (false, false) (by decide) (by decide) (by decide)
      (by decide)⟩

/-! ## Number of threads -/

/-- C27: `getNumberThreads` never returns 0: whatever the CPU count and the
`GDAL_NUM_THREADS` setting are (absent, `ALL_CPUS`, or any text, converted by
`atoi` and cut to 8 bits), the result is at least 1, and it fits 8 bits. -/
theorem getNumberThreads_pos (cpus : Int) (numThreadsStr : Option StdString)
    (isAllCpus : StdString → Bool) (atoi : StdString → Int) :
    1 ≤ getNumberThreads cpus numThreadsStr isAllCpus atoi ∧
    getNumberThreads cpus numThreadsStr isAllCpus atoi < 256 := by
  unfold getNumberThreads
  have h1 : (cpus % 256).toNat < 256 := by omega
  cases numThreadsStr with
  | none =>
    simp only
    split <;> omega
  | some s =>
    have h2 : (atoi s % 256).toNat < 256 := by omega
    simp only
    split <;> split <;> omega

/-! ## Archive paths -/

/-- C28: for every type `t` and system path `p`, the path stored by the
`Archive` constructor is `pathPrefix(t)` followed by `p`, the system path that
`destroy` recomputes from it is exactly `p`, and `pathPrefix` is `"/vsizip/"`
for `CAT_CONTAINER_ARCHIVE_ZIP` and empty for every other type. -/
theorem Archive.sysPath_create (CAT_CONTAINER_ARCHIVE_ZIP t : Int) (p : StdString) :
    (Archive.create CAT_CONTAINER_ARCHIVE_ZIP t p).m_path =
        Archive.pathPrefix CAT_CONTAINER_ARCHIVE_ZIP t ++ p ∧
    Archive.sysPath CAT_CONTAINER_ARCHIVE_ZIP (Archive.create CAT_CONTAINER_ARCHIVE_ZIP t p) =
        some p ∧
    Archive.pathPrefix CAT_CONTAINER_ARCHIVE_ZIP CAT_CONTAINER_ARCHIVE_ZIP =
        ['/', 'v', 's', 'i', 'z', 'i', 'p', '/'] ∧
    (t ≠ CAT_CONTAINER_ARCHIVE_ZIP → Archive.pathPrefix CAT_CONTAINER_ARCHIVE_ZIP t = []) := by
  refine ⟨rfl, ?_, ?_, ?_⟩
  · simp [Archive.sysPath, Archive.create, substr]
  · simp [Archive.pathPrefix]
  · intro h
    simp [Archive.pathPrefix, h]

/-! ## Opening the data store -/

/-- C29, the case where it fails: the path is set, the database file is found,
the GPKG driver is there, and `GDALOpenEx` gives no dataset.  `open()` returns
`SUCCESS` and leaves the dataset pointer null, and so does `openOrCreate()`;
`create()` in the same store, when the driver's `Create` gives no dataset,
returns `CREATE_DB_FAILED`. -/
theorem DataStore.open_success_with_null_dataset :
    DataStore.open
        { checkForFile := fun _ => true, hasGpkgDriver := true, openEx := fun _ => none,
          mkdir := fun _ => true, driverCreate := fun _ => none }
        { m_sPath := "store".toList, m_poDS := none } =
      (.SUCCESS, { m_sPath := "store".toList, m_poDS := none }) ∧
    DataStore.openOrCreate
        { checkForFile := fun _ => true, hasGpkgDriver := true, openEx := fun _ => none,
          mkdir := fun _ => true, driverCreate := fun _ => none }
        { m_sPath := "store".toList, m_poDS := none } =
      (.SUCCESS, { m_sPath := "store".toList, m_poDS := none }) ∧
    DataStore.create
        { checkForFile := fun _ => true, hasGpkgDriver := true, openEx := fun _ => none,
          mkdir := fun _ => true, driverCreate := fun _ => none }
        { m_sPath := "store".toList, m_poDS := none } =
      (.CREATE_DB_FAILED, { m_sPath := "store".toList, m_poDS := none }) := by
  decide

/-! ## Options -/

theorem eqUpToCase_examples :
    toLower "Max_Level".toList = "max_level".toList ∧
    eqUpToCase "Max_Level".toList "MAX_level".toList = true ∧
    eqUpToCase "Max_Level".toList "Max-Level".toList = false ∧
    eqUpToCase "key@".toList "key\x60".toList = false ∧
    eqUpToCase "key".toList "keys".toList = false := by
  decide

theorem Options.lookup_foldl_insert (l : List (Sigma (fun _ : StdString => StdString)))
    (m : AList (fun _ : StdString => StdString)) (k : StdString) :
    (l.foldl (fun m e => if e.1 ∈ m then m else m.insert e.1 e.2) m).lookup k =
      match m.lookup k with
      | some v => some v
      | none => l.dlookup k := by
  induction l generalizing m with
  | nil =>
    simp only [List.foldl_nil, List.dlookup_nil]
    cases m.lookup k <;> rfl
  | cons e rest ih =>
    obtain ⟨ek, ev⟩ := e
    simp only [List.foldl_cons]
    rw [ih]
    by_cases hin : ek ∈ m
    · simp only [hin, if_true]
      cases hk : m.lookup k with
      | some v => rfl
      | none =>
        have hne : k ≠ ek := by
          intro h
          rw [h] at hk
          exact (AList.lookup_eq_none.mp hk) hin
        exact (List.dlookup_cons_ne rest ⟨ek, ev⟩ hne).symm
    · simp only [hin, if_false]
      by_cases hke : k = ek
      · subst hke
        rw [AList.lookup_insert, AList.lookup_eq_none.mpr hin]
        simp only [List.dlookup_cons_eq]
      · rw [AList.lookup_insert_ne hke]
        cases hk : m.lookup k with
        | some v => rfl
        | none => exact (List.dlookup_cons_ne rest ⟨ek, ev⟩ hke).symm

/-- C26: `a.append(b)` leaves the value of every key already present in `a`
unchanged and gives every key absent from `a` the value it has in `b` (no
value when `b` has none); read through `asString`, the receiver is asked first
and `b` second.  `add` on the contrary overwrites the value of a present
key. -/
theorem Options.append_keeps_receiver (toLower : StdString → StdString) (a b : Options)
    (k key d v : StdString) :
    (k ∈ a.m_options → (Options.append a b).m_options.lookup k = a.m_options.lookup k) ∧
    (k ∉ a.m_options → (Options.append a b).m_options.lookup k = b.m_options.lookup k) ∧
    Options.asString toLower (Options.append a b) key d =
      Options.asString toLower a key (Options.asString toLower b key d) ∧
    (Options.add toLower a key v).m_options.lookup (toLower key) = some v := by
  have hl := Options.lookup_foldl_insert b.m_options.entries a.m_options
  refine ⟨?_, ?_, ?_, ?_⟩
  · intro h
    obtain ⟨x, hx⟩ := Option.isSome_iff_exists.mp (AList.lookup_isSome.mpr h)
    simp only [Options.append, hl k, hx]
  · intro h
    simp only [Options.append, hl k, AList.lookup_eq_none.mpr h]
    rfl
  · simp only [Options.asString, Options.append, hl (toLower key)]
    cases a.m_options.lookup (toLower key) with
    | some x => rfl
    | none => rfl
  · simp [Options.add, AList.lookup_insert]

/-! ## The option strings of the constructor -/

theorem Options.scanOption_sep (n : Nat) (pre : StdString) (c : Char) (post : StdString)
    (hc : c = '=' ∨ c = ':') (hpre : ∀ x ∈ pre, ¬ (x = '=' ∨ x = ':')) (hn : pre.length < n) :
    Options.scanOption n (pre ++ c :: post) = (pre, post) := by
  induction pre generalizing n with
  | nil =>
    cases n with
    | zero => omega
    | succ m => simp [Options.scanOption, hc]
  | cons x xs ih =>
    cases n with
    | zero => omega
    | succ m =>
      have hx : ¬ (x = '=' ∨ x = ':') := hpre x (List.mem_cons_self x xs)
      have ih2 := ih m (fun y hy => hpre y (List.mem_cons_of_mem x hy))
        (by simp at hn; omega)
      have e : (x :: xs) ++ c :: post = x :: (xs ++ c :: post) := rfl
      rw [e, Options.scanOption, if_neg hx, ih2]

theorem Options.scanOption_nosep (n : Nat) (s : StdString)
    (h : ∀ x ∈ s.take n, ¬ (x = '=' ∨ x = ':')) :
    Options.scanOption n s = (s.take n, []) := by
  induction s generalizing n with
  | nil => cases n <;> simp [Options.scanOption]
  | cons x xs ih =>
    cases n with
    | zero => simp [Options.scanOption]
    | succ m =>
      have hx : ¬ (x = '=' ∨ x = ':') := h x (by simp)
      have ih2 := ih m (fun y hy => h y (by simp [hy]))
      simp only [Options.scanOption, hx, if_false, ih2, List.take_succ_cons]

theorem Options.lookup_create_snoc (toLower : StdString → StdString) (opts : List StdString)
    (o : StdString) :
    (Options.create toLower (some (opts ++ [o]))).m_options =
      (Options.create toLower (some opts)).m_options.insert
        (toLower (Options.parseOption o).1) (Options.parseOption o).2 := by
  simp [Options.create, Options.add, List.foldl_append]

/-- C25: the constructor on option strings.  When the first `'='` or `':'` of a
string comes after fewer than 255 other characters, the key is the run before
it and the value everything after it; when the first 255 characters hold no
separator, the key is those (at most 255) characters and the value is empty.
Each string is stored under the lower-cased key with its value, replacing what
an earlier string stored under that key and leaving every other key as it was:
the later string wins. -/
theorem Options.create_parses (toLower : StdString → StdString) :
    (∀ (pre : StdString) (c : Char) (post : StdString), (c = '=' ∨ c = ':') →
      (∀ x ∈ pre, ¬ (x = '=' ∨ x = ':')) → pre.length < 255 →
      Options.parseOption (pre ++ c :: post) = (pre, post)) ∧
    (∀ option : StdString, (∀ x ∈ option.take 255, ¬ (x = '=' ∨ x = ':')) →
      Options.parseOption option = (option.take 255, [])) ∧
    (∀ (opts : List StdString) (o : StdString),
      (Options.create toLower (some (opts ++ [o]))).m_options.lookup
          (toLower (Options.parseOption o).1) = some (Options.parseOption o).2) ∧
    (∀ (opts : List StdString) (o k : StdString), k ≠ toLower (Options.parseOption o).1 →
      (Options.create toLower (some (opts ++ [o]))).m_options.lookup k =
        (Options.create toLower (some opts)).m_options.lookup k) := by
  refine ⟨?_, ?_, ?_, ?_⟩
  · intro pre c post hc hpre hlen
    apply Options.scanOption_sep _ _ _ _ hc hpre
    simp only [Options.MAX_OPTION_LEN, List.length_append, List.length_cons]
    omega
  · intro option h
    have ht : option.take (min option.length Options.MAX_OPTION_LEN) = option.take 255 := by
      simp only [Options.MAX_OPTION_LEN]
      by_cases hl : option.length ≤ 255
      · rw [Nat.min_eq_left hl, List.take_of_length_le (le_refl _), List.take_of_length_le hl]
      · rw [Nat.min_eq_right (by omega)]
    unfold Options.parseOption
    rw [Options.scanOption_nosep _ _ (by rw [ht]; exact h), ht]
  · intro opts o
    rw [Options.lookup_create_snoc]
    exact AList.lookup_insert _
  · intro opts o k hk
    rw [Options.lookup_create_snoc]
    exact AList.lookup_insert_ne hk

/-! ## Hiding the remote id field -/

/-- Both `fillFields` look at the last field only: with exact comparison as
`compare` and `REMOTE_ID_KEY = "rid"`, the field list `rid, name` comes back
unchanged, the field named `rid` is not the last one and stays.  Whether
`Table::fillFields` (table.cpp, not among the sources) can produce such a list
is not settled here. -/
theorem StoreTable.fillFields_keeps_inner_remote_id :
    StoreTable.fillFields (fun a b => a == b) "rid".toList
        [{ m_name := "rid".toList, m_originalName := "rid".toList, m_alias := [], m_type := 12 },
         { m_name := "name".toList, m_originalName := "name".toList, m_alias := [],
           m_type := 4 }] =
      some
        [{ m_name := "rid".toList, m_originalName := "rid".toList, m_alias := [], m_type := 12 },
         { m_name := "name".toList, m_originalName := "name".toList, m_alias := [],
           m_type := 4 }] ∧
    StoreFeatureClass.fillFields (fun a b => a == b) "rid".toList
        [{ m_name := "rid".toList, m_originalName := "rid".toList, m_alias := [], m_type := 12 },
         { m_name := "name".toList, m_originalName := "name".toList, m_alias := [],
           m_type := 4 }] =
      some
        [{ m_name := "rid".toList, m_originalName := "rid".toList, m_alias := [], m_type := 12 },
         { m_name := "name".toList, m_originalName := "name".toList, m_alias := [],
           m_type := 4 }] := by
  decide

theorem hideLast_of_inner_clean (compare : StdString → StdString → Bool) (key : StdString)
    (m_fields : List Field) (hne : m_fields ≠ [])
    (hinner : ∀ g ∈ m_fields.dropLast, compare g.m_name key = false) :
    (if compare (m_fields.getLast hne).m_name key then m_fields.dropLast else m_fields) =
      m_fields.filter (fun g => !compare g.m_name key) := by
  have hsplit : m_fields.dropLast ++ [m_fields.getLast hne] = m_fields :=
    List.dropLast_append_getLast hne
  have hfilter : m_fields.dropLast.filter (fun g => !compare g.m_name key) =
      m_fields.dropLast := by
    apply List.filter_eq_self.mpr
    intro g hg
    simp [hinner g hg]
  by_cases hl : compare (m_fields.getLast hne).m_name key = true
  · rw [if_pos hl]
    conv_rhs => rw [← hsplit]
    rw [List.filter_append, hfilter]
    simp [hl]
  · rw [if_neg hl]
    conv_rhs => rw [← hsplit]
    rw [List.filter_append, hfilter]
    simp [hl, hsplit]

/-- For every non-empty field list in which no field other than the last is
named `REMOTE_ID_KEY`, both `fillFields` leave a list in which no field named
`REMOTE_ID_KEY` remains and which consists of all the other fields in their
original order. -/
theorem StoreTable.fillFields_hides_last (compare : StdString → StdString → Bool)
    (REMOTE_ID_KEY : StdString) (m_fields : List Field) (hne : m_fields ≠ [])
    (hinner : ∀ g ∈ m_fields.dropLast, compare g.m_name REMOTE_ID_KEY = false) :
    StoreTable.fillFields compare REMOTE_ID_KEY m_fields =
        some (m_fields.filter (fun g => !compare g.m_name REMOTE_ID_KEY)) ∧
    StoreFeatureClass.fillFields compare REMOTE_ID_KEY m_fields =
        some (m_fields.filter (fun g => !compare g.m_name REMOTE_ID_KEY)) ∧
    (∀ g ∈ m_fields.filter (fun g => !compare g.m_name REMOTE_ID_KEY),
        compare g.m_name REMOTE_ID_KEY = false) := by
  have hlast : m_fields.getLast? = some (m_fields.getLast hne) :=
    List.getLast?_eq_getLast m_fields hne
  have h := hideLast_of_inner_clean compare REMOTE_ID_KEY m_fields hne hinner
  refine ⟨?_, ?_, ?_⟩
  · simp only [StoreTable.fillFields, hlast]
    rw [← h]
    split <;> rfl
  · simp only [StoreFeatureClass.fillFields, hlast]
    rw [← h]
    split <;> rfl
  · intro g hg
    simpa using (List.mem_filter.mp hg).2

/-- An instance of `StoreTable.fillFields_hides_last`: the field list
`name, rid` comes back as `name`. -/
theorem StoreTable.fillFields_hides_last_witness :
    StoreTable.fillFields (fun a b => a == b) "rid".toList
        [{ m_name := "name".toList, m_originalName := "name".toList, m_alias := [], m_type := 4 },
         { m_name := "rid".toList, m_originalName := "rid".toList, m_alias := [],
           m_type := 12 }] =
      some (List.filter (fun g => !(g.m_name == "rid".toList))
        [{ m_name := "name".toList, m_originalName := "name".toList, m_alias := [], m_type := 4 },
         { m_name := "rid".toList, m_originalName := "rid".toList, m_alias := [],
           m_type := 12 }]) :=
  (StoreTable.fillFields_hides_last (fun a b => a == b) "rid".toList
    [{ m_name := "name".toList, m_originalName := "name".toList, m_alias := [], m_type := 4 },
     { m_name := "rid".toList, m_originalName := "rid".toList, m_alias := [], m_type := 12 }]
    (by decide) (by decide)).1

/-! ## Sending track points -/

end ngs
